import Mathlib

/-!
Verification development for the kt-ai-Studio task orchestration core.

The definitions below are a shallow embedding of the Python sources:

* `app/services/tasks/manager.py`  (TaskManager worker loop, scene-merge pipeline)
* `app/routes/tasks.py`            (interrupt_task, stop_all_tasks)
* `app/services/tasks/batch.py`    (batch supervisor, process_batch_gen_base)
* `app/services/comfyui/runner.py` (8-views progress aggregation)

Conventions of the embedding:

* Timestamps (`datetime.utcnow()`) are abstracted as `Nat` ticks of a logical
  clock carried by the scheduler state.
* The SQLite task table is a `List Task`; primary-key autoincrement is
  modelled by a `nextId` counter.  Database commits are modelled as atomic
  state transitions (the embedding assumes commits succeed).
* Filesystem paths are abstract strings: `os.path` normalisation between the
  absolute path of an artifact and its web-relative form is dropped, both
  forms denote the same artifact.  `os.path.exists` checks on files that the
  pipeline itself just produced are modelled as succeeding.
* Remote ComfyUI calls are oracles supplied in an environment record:
  a backend call either returns an artifact path or raises.
-/

namespace KtAiStudio

/-! ## Task records (app/db/models.py, class Task) -/

/-- Task.status column: "queued" / "running" / "done" / "failed". -/
inductive Status where
  | queued
  | running
  | done
  | failed
  deriving DecidableEq, Repr

/-- One row of the kt_ai_task table.  `task_type` is the Task.task_type
string; numeric timestamps abstract the DateTime columns.  The advisory
`eta` column is omitted (never read for control flow). -/
structure Task where
  id : Nat
  task_type : String
  status : Status
  progress : Nat
  result_json : Option String
  error : Option String
  created_at : Nat
  started_at : Option Nat
  completed_at : Option Nat
  duration : Option Nat
  deriving DecidableEq, Repr

/-- json.dumps({"error": "Interrupted by user"}) written by interrupt_task
(app/routes/tasks.py line 274). -/
def interruptedMsg : String := "\x7b\"error\": \"Interrupted by user\"\x7d"

/-- json.dumps({"error": "Stopped by user (Global Stop)"}) written by
stop_all_tasks (app/routes/tasks.py line 319). -/
def globalStopMsg : String := "\x7b\"error\": \"Stopped by user (Global Stop)\"\x7d"

/-! ## Scheduler state (TaskManager + task table + routes) -/

/-- Global scheduler state: the task table, the id of the task the single
worker thread is currently processing (none while idling between tasks),
the TaskManager.running flag, the autoincrement counter and a logical
clock. -/
structure SchedState where
  tasks : List Task
  worker : Option Nat
  managerRunning : Bool
  nextId : Nat
  clock : Nat
  deriving DecidableEq, Repr

/-- db.query(Task).filter(Task.id == id).first() -/
def lookupTask (s : SchedState) (id : Nat) : Option Task :=
  s.tasks.find? (fun t => t.id == id)

/-- Status of a task as an observer reads it. -/
def statusOf (s : SchedState) (id : Nat) : Option Status :=
  (lookupTask s id).map (fun t => t.status)

/-- Helper for the fold below: the minimum-`created_at` element. -/
def minByCreated (b : Task) (l : List Task) : Task :=
  l.foldl (fun best u => if u.created_at < best.created_at then u else best) b

/-- db.query(Task).filter(Task.status == "queued").order_by(Task.created_at.asc()).first()
(app/services/tasks/manager.py line 61): among queued tasks, one with the
minimal creation time. -/
def selectOldestQueued (ts : List Task) : Option Task :=
  match ts.filter (fun t => decide (t.status = .queued)) with
  | [] => none
  | t :: rest => some (minByCreated t rest)

/-- Update every row matching an id (ids are unique in reachable states). -/
def updateTask (ts : List Task) (id : Nat) (f : Task → Task) : List Task :=
  ts.map (fun t => if t.id = id then f t else t)

/-- Worker-loop finalization on handler success (manager.py lines 76-113):
if the task was not externally failed, set done and progress 100; then set
completed_at if absent and derive duration. -/
def finalizeOk (clock : Nat) (t : Task) : Task :=
  let t1 := if t.status ≠ .failed then { t with status := .done, progress := 100 } else t
  let fin := t1.completed_at.getD clock
  { t1 with completed_at := some fin,
            duration := if t1.started_at.isSome then some (fin - t1.started_at.getD fin) else t1.duration }

/-- Worker-loop finalization on handler exception (manager.py lines 86-113):
if the task was externally failed leave it, otherwise mark failed with the
exception text; then set completed_at if absent and derive duration. -/
def finalizeErr (clock : Nat) (msg : String) (t : Task) : Task :=
  let t1 := if t.status = .failed then t else { t with status := .failed, error := some msg }
  let fin := t1.completed_at.getD clock
  { t1 with completed_at := some fin,
            duration := if t1.started_at.isSome then some (fin - t1.started_at.getD fin) else t1.duration }

/-- interrupt_task body for one row (app/routes/tasks.py lines 269-277):
only a queued or running task is mutated. -/
def cancelRow (clock : Nat) (id : Nat) (t : Task) : Task :=
  if t.id = id ∧ (t.status = .queued ∨ t.status = .running) then
    { t with status := .failed, result_json := some interruptedMsg, completed_at := some clock }
  else t

/-- stop_all_tasks body for one row (app/routes/tasks.py lines 313-323). -/
def stopRow (clock : Nat) (t : Task) : Task :=
  if t.status = .queued ∨ t.status = .running then
    { t with status := .failed, result_json := some globalStopMsg, completed_at := some clock }
  else t

/-- The events that mutate scheduler state.  `enqueue` is crud.create_task /
the batch supervisor inserting a row with status "queued"; `claim` is the
worker loop picking the oldest queued task; `writeProgress` is a handler
committing a progress value for the claimed task; `finishOk`/`finishErr`
are the worker loop finalizing the claimed task; `cancel` is POST
/tasks/interrupt; `stopAll` is POST /tasks/stop_all; `deleteWhere` is the
force-reset routes deleting rows; `managerStop` is TaskManager.stop();
`tick` advances the clock. -/
inductive Action where
  | enqueue (task_type : String)
  | claim
  | writeProgress (p : Nat)
  | finishOk
  | finishErr (msg : String)
  | cancel (id : Nat)
  | stopAll
  | deleteWhere (ids : List Nat)
  | managerStop
  | tick
  deriving DecidableEq, Repr

/-- The row inserted by crud.create_task and by the batch supervisor:
status "queued", progress at its column default 0, no timestamps except
created_at. -/
def newTaskRow (s : SchedState) (ty : String) : Task :=
  { id := s.nextId, task_type := ty, status := .queued,
    progress := 0, result_json := none, error := none,
    created_at := s.clock, started_at := none,
    completed_at := none, duration := none }

/-- One atomic transition of the orchestration core. -/
def applyAction (s : SchedState) (a : Action) : SchedState :=
  match a with
  | .enqueue ty =>
      { s with tasks := s.tasks ++ [newTaskRow s ty],
               nextId := s.nextId + 1 }
  | .claim =>
      match s.worker with
      | some _ => s
      | none =>
        match selectOldestQueued s.tasks with
        | none => s
        | some t =>
            { s with tasks := updateTask s.tasks t.id
                       (fun u => { u with status := .running, started_at := some s.clock, progress := 0 }),
                     worker := some t.id }
  | .writeProgress p =>
      match s.worker with
      | none => s
      | some id => { s with tasks := updateTask s.tasks id (fun u => { u with progress := p }) }
  | .finishOk =>
      match s.worker with
      | none => s
      | some id => { s with tasks := updateTask s.tasks id (finalizeOk s.clock), worker := none }
  | .finishErr msg =>
      match s.worker with
      | none => s
      | some id => { s with tasks := updateTask s.tasks id (finalizeErr s.clock msg), worker := none }
  | .cancel id =>
      if id = 0 then s
      else { s with tasks := s.tasks.map (cancelRow s.clock id) }
  | .stopAll =>
      { s with tasks := s.tasks.map (stopRow s.clock) }
  | .deleteWhere ids =>
      { s with tasks := s.tasks.filter (fun t => decide (t.id ∉ ids)) }
  | .managerStop =>
      { s with managerRunning := false }
  | .tick =>
      { s with clock := s.clock + 1 }

/-- Run a sequence of events. -/
def run (s : SchedState) (acts : List Action) : SchedState :=
  acts.foldl applyAction s

/-- State right after TaskManager.start(): empty table, idle worker. -/
def initState : SchedState :=
  { tasks := [], worker := none, managerRunning := true, nextId := 1, clock := 0 }

/-- A scheduler state the system can actually be in. -/
def Reachable (s : SchedState) : Prop :=
  ∃ acts : List Action, run initState acts = s

/-- Number of rows currently in status "running". -/
def countRunning (s : SchedState) : Nat :=
  (s.tasks.filter (fun t => decide (t.status = .running))).length

/-- The cancel_check_func closure `lambda: not self.running` that the
TaskManager hands to every ComfyRunner call (manager.py lines 293, 381,
433, 734, 981). -/
def managerCancelCheck (s : SchedState) : Bool :=
  !s.managerRunning

/-- The status re-read performed inside the progress callbacks
(manager.py lines 258-265): db.refresh(task) followed by raising when the
status is "failed"; a deleted row also raises.  `true` means the adapter
aborts. -/
def adapterStatusCheckAborts (s : SchedState) (id : Nat) : Bool :=
  match lookupTask s id with
  | none => true
  | some t => t.status == .failed

/-! ## Scheduler invariants -/

/-- Structural invariant of reachable scheduler states: primary keys are
unique, positive and below the autoincrement counter; a running row is the
one the worker claimed; the claimed row is running unless externally
failed; terminal status coincides with completed_at being set; done rows
show progress 100. -/
structure Inv (s : SchedState) : Prop where
  nodup : (s.tasks.map (fun t => t.id)).Nodup
  next_pos : 0 < s.nextId
  ids_pos : ∀ t ∈ s.tasks, 0 < t.id
  ids_lt : ∀ t ∈ s.tasks, t.id < s.nextId
  worker_lt : ∀ w, s.worker = some w → w < s.nextId
  running_claimed : ∀ t ∈ s.tasks, t.status = .running → s.worker = some t.id
  claimed_status : ∀ id, s.worker = some id → ∀ t ∈ s.tasks, t.id = id →
    t.status = .running ∨ t.status = .failed
  terminal_iff : ∀ t ∈ s.tasks, (t.status = .done ∨ t.status = .failed) ↔ t.completed_at.isSome
  done_progress : ∀ t ∈ s.tasks, t.status = .done → t.progress = 100

/-- After a task is failed, no event of the system ever moves it out of
"failed" (it may only be deleted); and its id is never reused. -/
def FailedForever (s : SchedState) (id : Nat) : Prop :=
  id < s.nextId ∧ ∀ t ∈ s.tasks, t.id = id → t.status = .failed

/-! ## The operator-stop tag
(batch.py checks the raw substring "Global Stop" of Task.result_json) -/

/-- Leading-segment match on character lists. -/
def leadMatch : List Char → List Char → Bool
  | [], _ => true
  | _ :: _, [] => false
  | a :: as, b :: bs => a == b && leadMatch as bs

/-- Substring occurrence on character lists. -/
def hasRun (pat : List Char) : List Char → Bool
  | [] => pat.isEmpty
  | c :: rest => leadMatch pat (c :: rest) || hasRun pat rest

/-- Python `"Global Stop" in s` as used by every batch supervisor chain
(app/services/tasks/batch.py lines 107, 156, 202, ...). -/
def strHasGlobalStop (s : String) : Bool :=
  hasRun "Global Stop".data s.data

/-- Python `task.result_json and "Global Stop" in task.result_json`:
a null (or empty, hence tag-free) result_json never matches. -/
def resultHasGlobalStop : Option String → Bool
  | none => false
  | some s => strHasGlobalStop s

/-! ## Scene-merge composite pipeline
(TaskManager._handle_scene_merge, manager.py lines 750-1105, and
ComfyRunner.run_scene_merge).  Artifact paths are abstract strings; the
os.path relativisation between the absolute artifact path and its
web-relative form is dropped (both denote the same artifact), and
os.path.exists on files the pipeline itself just produced is modelled as
succeeding. -/

/-- A character as the pipeline reads it: parsed views_json (empty list
when null or unparseable) and the base image path. -/
structure Player where
  id : Nat
  player_name : String
  views : List (String × String)
  base_image_path : Option String
  deriving DecidableEq, Repr

/-- One step of the merge plan returned by generate_merge_prompts (dict
fields are optional, read with .get defaults). -/
structure PlanStep where
  player_id : Option Nat
  player_name : Option String
  view_key : Option String
  merge_pos : Option String
  merge_neg : Option String
  deriving DecidableEq, Repr

/-- One entry of merge_records (manager.py lines 955-962). -/
structure StepRecord where
  step_index : Nat
  player_name : String
  view_key : String
  prompt_pos : String
  prompt_neg : String
  player_img_path : String
  deriving DecidableEq, Repr

/-- The Scene columns the pipeline reads and writes. -/
structure SceneState where
  base_image_path : Option String
  merged_image_path : Option String
  merged_prompts : Option (List StepRecord)
  status : String
  deriving DecidableEq, Repr

/-- Environment of one SCENE_MERGE run: the TaskManager.running flag, the
linked players, the planner outcome (generate_merge_prompts either
returns a step list or raises), and the backend outcome of the n-th
run_scene_merge submission (artifact path or raise). -/
structure MergeEnv where
  running : Bool
  players : List Player
  planner : Except Unit (List PlanStep)
  backend : Nat → Except Unit String

/-- Python truthiness of step.get("player_id"). -/
def truthyId : Option Nat → Bool
  | none => false
  | some n => n != 0

/-- Python truthiness of step.get("player_name"). -/
def truthyName : Option String → Bool
  | none => false
  | some s => s != ""

/-- Player resolution for a plan step (manager.py lines 867-881): first by
id, then by name through player_map (a dict built in list order, so a
duplicated name maps to the last player carrying it). -/
def resolvePlayer (players : List Player) (step : PlanStep) : Option Player :=
  let byId : Option Player :=
    if truthyId step.player_id then
      players.find? (fun p => some p.id == step.player_id)
    else none
  match byId with
  | some p => some p
  | none =>
      if truthyName step.player_name then
        (players.reverse).find? (fun p => some p.player_name == step.player_name)
      else none

/-- Dict lookup in the parsed views_json. -/
def lookupView (views : List (String × String)) (key : String) : Option String :=
  (views.find? (fun kv => kv.1 == key)).map (fun kv => kv.2)

/-- step.get("view_key", "right45"). -/
def viewKeyOf (step : PlanStep) : String := step.view_key.getD "right45"

/-- Reference-image resolution for a step (manager.py lines 906-924):
requested view, then "right45", then "front", then any view, then the
base image; none when the player has no image at all. -/
def resolveImage (p : Player) (key : String) : Option String :=
  let fromViews : Option String :=
    if p.views.isEmpty then none
    else
      match lookupView p.views key with
      | some img => some img
      | none =>
        match lookupView p.views "right45" with
        | some img => some img
        | none =>
          match lookupView p.views "front" with
          | some img => some img
          | none => (p.views.head?).map (fun kv => kv.2)
  match fromViews with
  | some img => some img
  | none => p.base_image_path

/-- One step of the deterministic fallback plan used when
generate_merge_prompts raises (manager.py lines 839-849). -/
def fallbackStep (p : Player) : PlanStep :=
  { player_id := some p.id, player_name := some p.player_name,
    view_key := some "right45",
    merge_pos := some (p.player_name ++ " standing in scene, natural lighting"),
    merge_neg := some "floating, bad shadow" }

/-- The fallback plan: one step per linked character, in roster order. -/
def fallbackPlan (players : List Player) : List PlanStep :=
  players.map fallbackStep

/-- The step list the pipeline executes: the planner result, or the
fallback plan when the planning call raised. -/
def plannedSteps (env : MergeEnv) : List PlanStep :=
  match env.planner with
  | .ok steps => steps
  | .error _ => fallbackPlan env.players

/-- The directive appended to the positive prompt from the second step on
(manager.py lines 948-950). -/
def contextTail : String := " (Keep existing characters unchanged, only add new character)"

/-- Mutable state of the step loop: current composite image path, the
committed Scene.merged_image_path, the in-memory merge_records list, the
number of backend submissions so far, and the committed progress writes. -/
structure LoopState where
  current : String
  scene_merged : Option String
  records : List StepRecord
  subCount : Nat
  trace : List Nat
  deriving DecidableEq, Repr

/-- The merge_records entry appended for one executed step
(manager.py lines 948-962). -/
def mergeEntry (idx : Nat) (step : PlanStep) (player : Player) (img : String) : StepRecord :=
  { step_index := idx, player_name := player.player_name,
    view_key := viewKeyOf step,
    prompt_pos := (step.merge_pos.getD "") ++ (if 0 < idx then contextTail else ""),
    prompt_neg := step.merge_neg.getD "",
    player_img_path := img }

/-- The for-loop over plan steps (manager.py lines 863-1027).  Per step:
manager-running check, player resolution (silent skip), progress commit
of int(idx/total*100), image resolution (silent skip), record append,
backend submission; on success the new artifact is committed as the
Scene's intermediate merged image before the next step.  Returns the
final loop state and whether the loop completed without raising. -/
def mergeLoop (env : MergeEnv) (total : Nat) :
    Nat → List PlanStep → LoopState → LoopState × Bool
  | _, [], st => (st, true)
  | idx, step :: rest, st =>
    if env.running = false then (st, false)
    else
      match resolvePlayer env.players step with
      | none => mergeLoop env total (idx + 1) rest st
      | some player =>
        let st1 : LoopState := { st with trace := st.trace ++ [idx * 100 / total] }
        match resolveImage player (viewKeyOf step) with
        | none => mergeLoop env total (idx + 1) rest st1
        | some img =>
          let st2 : LoopState :=
            { st1 with records := st1.records ++ [mergeEntry idx step player img] }
          match env.backend st2.subCount with
          | .error _ => (st2, false)
          | .ok artifact =>
              mergeLoop env total (idx + 1) rest
                { st2 with current := artifact, scene_merged := some artifact,
                           subCount := st2.subCount + 1 }

/-- Observable outcome of one _handle_scene_merge run: whether the handler
returned normally, the committed Scene columns, the committed task
progress values in order, and how many backend jobs were submitted. -/
structure MergeOutcome where
  ok : Bool
  scene : SceneState
  progressWrites : List Nat
  submissions : Nat
  deriving DecidableEq, Repr

/-- TaskManager._handle_scene_merge.  Control flow of the source: missing
base image raises; no linked players short-circuits to completed; then
progress 5, planning (fallback on raise), empty plan short-circuits,
progress 10, the step loop, and on success the final merged path, the
persisted step records, status completed and progress 100 are committed.
On a step failure the exception propagates: the Scene keeps the columns
committed so far and the records list is not persisted. -/
def handleSceneMerge (env : MergeEnv) (scene : SceneState) : MergeOutcome :=
  match scene.base_image_path with
  | none => { ok := false, scene := scene, progressWrites := [], submissions := 0 }
  | some base =>
    if env.players.isEmpty then
      { ok := true,
        scene := { scene with merged_image_path := some base, status := "completed" },
        progressWrites := [100], submissions := 0 }
    else
      let steps := plannedSteps env
      let total := steps.length
      if total = 0 then
        { ok := true, scene := scene, progressWrites := [5, 100], submissions := 0 }
      else
        let st0 : LoopState := { current := base, scene_merged := scene.merged_image_path,
                                 records := [], subCount := 0, trace := [] }
        match mergeLoop env total 0 steps st0 with
        | (st, true) =>
            { ok := true,
              scene := { scene with
                           merged_image_path := some st.current,
                           merged_prompts := some st.records,
                           status := "completed" },
              progressWrites := [5, 10] ++ st.trace ++ [100],
              submissions := st.subCount }
        | (st, false) =>
            { ok := false,
              scene := { scene with merged_image_path := st.scene_merged },
              progressWrites := [5, 10] ++ st.trace,
              submissions := st.subCount }

/-! ## Multi-view progress aggregation
(ComfyRunner.run_gen_8views internal_callback, runner.py lines 468-583).
The Python float arithmetic is idealised over ℚ; `max`, `min` and the
comparisons below return one of their arguments in both systems, so the
no-regression mechanism is exactly preserved. -/

/-- State held by run_gen_8views across backend events: self.views_done
and self.last_progress. -/
structure ViewsState where
  views_done : Nat
  last_progress : ℚ
  deriving DecidableEq, Repr

/-- Backend events relevant to the aggregation: a sampler progress message
(value, max) and a node-finished message for a view's save node (with
whether the incremental download succeeded). -/
inductive ViewsEvent where
  | prog (val max_val : ℚ)
  | nodeFinished (downloadOk : Bool)
  deriving DecidableEq, Repr

/-- min(max(x, 0), 99) -/
def clamp99 (x : ℚ) : ℚ := min (max x 0) 99

/-- One event of the internal_callback: returns the new state and the
list of progress values it publishes to the task record (empty when the
event publishes nothing).  The `prog` branch is runner.py lines 479-527
(aggregate, take max with last_progress, clamp, store); the
`nodeFinished` branch is lines 529-583 (increment views_done; on a
successful incremental download publish the step-based aggregate without
updating last_progress). -/
def viewsStep (T : Nat) (st : ViewsState) : ViewsEvent → ViewsState × List ℚ
  | .prog v m =>
      if 0 < m then
        let np := v / m
        let raw := ((st.views_done : ℚ) + np) / (T : ℚ) * 100
        let gp := clamp99 (max raw st.last_progress)
        ({ st with last_progress := gp }, [gp])
      else (st, [])
  | .nodeFinished ok =>
      let st2 : ViewsState := { st with views_done := st.views_done + 1 }
      if ok then (st2, [clamp99 ((st2.views_done : ℚ) / (T : ℚ) * 100)])
      else (st2, [])

/-- The stream of progress values published over a run. -/
def viewsTrace (T : Nat) (st : ViewsState) : List ViewsEvent → List ℚ
  | [] => []
  | e :: rest => (viewsStep T st e).2 ++ viewsTrace T (viewsStep T st e).1 rest

/-- Initial aggregation state (runner.py lines 469-470). -/
def viewsInit : ViewsState := { views_done := 0, last_progress := 0 }

/-- Sanity of a backend event: ComfyUI progress messages report
0 ≤ value ≤ max for the executing sampler. -/
def ViewsEventOk : ViewsEvent → Prop
  | .prog v m => 0 < m → 0 ≤ v ∧ v ≤ m
  | .nodeFinished _ => True

instance : (e : ViewsEvent) → Decidable (ViewsEventOk e)
  | .prog v m => inferInstanceAs (Decidable (0 < m → 0 ≤ v ∧ v ≤ m))
  | .nodeFinished _ => inferInstanceAs (Decidable True)

/-- Invariant of the aggregation state while a run proceeds. -/
def ViewsGood (T : Nat) (st : ViewsState) : Prop :=
  0 ≤ st.last_progress ∧ st.last_progress ≤ 99 ∧
  st.last_progress ≤ clamp99 (((st.views_done : ℚ) + 1) / (T : ℚ) * 100)

/-- Greatest progress value published so far is bounded by this. -/
def viewsBound (T : Nat) (st : ViewsState) : ℚ :=
  max st.last_progress (clamp99 ((st.views_done : ℚ) / (T : ℚ) * 100))

/-! ## Batch supervisor
(process_batch_gen_base, app/services/tasks/batch.py lines 56-168). -/

/-- A character row as the supervisor reads it. -/
structure BatchPlayer where
  player_name : String
  status : String
  deriving DecidableEq, Repr

/-- Terminal outcome of one awaited task as wait_for_task plus db.refresh
surface it: done, or not-done (failed / timed out / deleted) together with
the task row's final result_json. -/
inductive StageOutcome where
  | success
  | failure (result_json : Option String)
  deriving DecidableEq, Repr

/-- Observable actions of one batch run, indexed by the 0-based position
of the item in the roster. -/
inductive BatchEvent where
  | skip (i : Nat)
  | submitPrompt (i : Nat)
  | submitBase (i : Nat)
  | abortBatch (i : Nat)
  deriving DecidableEq, Repr

/-- Item position an event belongs to. -/
def BatchEvent.idx : BatchEvent → Nat
  | .skip i => i
  | .submitPrompt i => i
  | .submitBase i => i
  | .abortBatch i => i

/-- Environment of a batch run: the roster and, for each item position,
the terminal outcomes of its GEN_PROMPT and GEN_BASE tasks. -/
structure BatchEnv where
  players : List BatchPlayer
  promptOutcome : Nat → StageOutcome
  baseOutcome : Nat → StageOutcome

/-- The per-item loop of process_batch_gen_base: skip done/ready items;
for draft items submit GEN_PROMPT, await it, and on failure abort the
whole batch when result_json carries "Global Stop", otherwise move to the
next item; on success submit GEN_BASE and repeat the same check; items in
any other status are passed over. -/
def batchGenBaseAux (env : BatchEnv) : Nat → List BatchPlayer → List BatchEvent
  | _, [] => []
  | i, p :: rest =>
    if p.status = "done" ∨ p.status = "ready" then
      .skip i :: batchGenBaseAux env (i + 1) rest
    else if p.status = "draft" then
      .submitPrompt i ::
        (match env.promptOutcome i with
         | .failure rj =>
             if resultHasGlobalStop rj then [.abortBatch i]
             else batchGenBaseAux env (i + 1) rest
         | .success =>
             .submitBase i ::
               (match env.baseOutcome i with
                | .failure rj =>
                    if resultHasGlobalStop rj then [.abortBatch i]
                    else batchGenBaseAux env (i + 1) rest
                | .success => batchGenBaseAux env (i + 1) rest))
    else batchGenBaseAux env (i + 1) rest

/-- The event trace of one process_batch_gen_base run. -/
def processBatchGenBase (env : BatchEnv) : List BatchEvent :=
  batchGenBaseAux env 0 env.players

/-! ## Properties of the merge loop -/

/-- A plan step the loop actually executes: the player resolves and a
reference image exists (otherwise the step is soft-skipped). -/
def Resolves (players : List Player) (step : PlanStep) : Prop :=
  ∃ p img, resolvePlayer players step = some p ∧
    resolveImage p (viewKeyOf step) = some img

/-- Terminal-consistency predicate over a scheduler state. -/
def TerminalConsistent (s : SchedState) : Prop :=
  ∀ t ∈ s.tasks, ((t.status = .done ∨ t.status = .failed) ↔ t.completed_at.isSome) ∧
    (t.status = .done → t.progress = 100)

/-- Two characters shared by the concrete pipeline instantiations. -/
def playerW1 : Player :=
  { id := 1, player_name := "p", views := [], base_image_path := some "p1" }

/-- Second concrete character. -/
def playerW2 : Player :=
  { id := 2, player_name := "q", views := [], base_image_path := some "p2" }

/-- A Scene with a generated base image and no merge data yet. -/
def sceneW : SceneState :=
  { base_image_path := some "sb", merged_image_path := none,
    merged_prompts := none, status := "generated" }

/-- One character, failed planning call, backend always succeeds. -/
def mergeEnvC2 : MergeEnv :=
  { running := true, players := [playerW1], planner := .error (),
    backend := fun _ => .ok "m0" }

/-- Two-step plan whose second backend job fails. -/
def mergeEnvC4 : MergeEnv :=
  { running := true, players := [playerW1, playerW2],
    planner := .ok [fallbackStep playerW1, fallbackStep playerW2],
    backend := fun n => if n = 0 then .ok "a0" else .error () }

/-- Same plan with every backend job succeeding. -/
def mergeEnvC4ok : MergeEnv :=
  { mergeEnvC4 with backend := fun n => .ok (if n = 0 then "a0" else "a1") }

/-- Two-step plan, all backend jobs succeed. -/
def mergeEnvC7 : MergeEnv :=
  { running := true, players := [playerW1, playerW2],
    planner := .ok [fallbackStep playerW1, fallbackStep playerW2],
    backend := fun n => .ok (if n = 0 then "a0" else "a1") }

/-- Failed planning call over two characters, backend always succeeds. -/
def mergeEnvC8 : MergeEnv :=
  { running := true, players := [playerW1, playerW2], planner := .error (),
    backend := fun n => .ok (if n = 0 then "m0" else "m1") }

/-- Two resolvable steps with an always-succeeding backend, as run by a
SCENE_MERGE task that was cancelled right after its first step: the
pipeline consults only the manager flag, which is still true. -/
def mergeEnvC6 : MergeEnv :=
  { running := true, players := [playerW1, playerW2], planner := .error (),
    backend := fun n => .ok (if n = 0 then "m0" else "m1") }

theorem minByCreated_cons (b u : Task) (l : List Task) :
    minByCreated b (u :: l) = minByCreated (if u.created_at < b.created_at then u else b) l := rfl

theorem minByCreated_mem (b : Task) (l : List Task) : minByCreated b l ∈ b :: l := by
  induction l generalizing b with
  | nil => simp [minByCreated]
  | cons u l ih =>
      rw [minByCreated_cons]
      rcases List.mem_cons.mp (ih (if u.created_at < b.created_at then u else b)) with h | h
      · rw [h]
        split <;> simp
      · simp [List.mem_cons.mpr (Or.inr h)]

theorem minByCreated_le (b : Task) (l : List Task) :
    (minByCreated b l).created_at ≤ b.created_at ∧
    ∀ u ∈ l, (minByCreated b l).created_at ≤ u.created_at := by
  induction l generalizing b with
  | nil => simp [minByCreated]
  | cons u l ih =>
      rw [minByCreated_cons]
      obtain ⟨h1, h2⟩ := ih (if u.created_at < b.created_at then u else b)
      constructor
      · refine le_trans h1 ?_
        split <;> omega
      · intro v hv
        rcases List.mem_cons.mp hv with rfl | hv
        · refine le_trans h1 ?_
          split <;> omega
        · exact h2 v hv

/-- Correctness of the worker-loop queue query: the selected task is a
queued task with minimal creation time among all queued tasks. -/
theorem selectOldestQueued_spec (ts : List Task) (t : Task)
    (h : selectOldestQueued ts = some t) :
    t ∈ ts ∧ t.status = .queued ∧
    ∀ u ∈ ts, u.status = .queued → t.created_at ≤ u.created_at := by
  unfold selectOldestQueued at h
  rcases hf : ts.filter (fun t => decide (t.status = .queued)) with _ | ⟨t0, rest⟩
  · rw [hf] at h
    exact absurd h (by simp)
  · rw [hf] at h
    have ht : t = minByCreated t0 rest := by
      simpa using h.symm
    have hmem : t ∈ t0 :: rest := ht ▸ minByCreated_mem t0 rest
    have hmemf : t ∈ ts.filter (fun t => decide (t.status = .queued)) := hf ▸ hmem
    have hts : t ∈ ts ∧ t.status = .queued := by
      have := List.mem_filter.mp hmemf
      simpa using this
    refine ⟨hts.1, hts.2, ?_⟩
    intro u hu hq
    have huf : u ∈ ts.filter (fun t => decide (t.status = .queued)) :=
      List.mem_filter.mpr ⟨hu, by simpa using hq⟩
    rw [hf] at huf
    obtain ⟨h1, h2⟩ := minByCreated_le t0 rest
    rcases List.mem_cons.mp huf with rfl | huf
    · exact ht ▸ h1
    · exact ht ▸ h2 u huf

theorem map_eq_self {α : Type} {l : List α} {f : α → α} (h : ∀ a ∈ l, f a = a) :
    l.map f = l := by
  induction l with
  | nil => rfl
  | cons a l ih =>
      simp only [List.map_cons, h a (List.mem_cons_self a l)]
      rw [ih (fun b hb => h b (List.mem_cons_of_mem a hb))]

theorem map_ids_of_id_preserving {l : List Task} {g : Task → Task}
    (h : ∀ t ∈ l, (g t).id = t.id) :
    (l.map g).map (fun t => t.id) = l.map (fun t => t.id) := by
  induction l with
  | nil => rfl
  | cons a l ih =>
      simp only [List.map_cons, h a (List.mem_cons_self a l)]
      rw [ih (fun b hb => h b (List.mem_cons_of_mem a hb))]

theorem updateTask_ids (ts : List Task) (id : Nat) (f : Task → Task)
    (hf : ∀ t, (f t).id = t.id) :
    (updateTask ts id f).map (fun t => t.id) = ts.map (fun t => t.id) := by
  refine map_ids_of_id_preserving ?_
  intro t _
  by_cases h : t.id = id <;> simp [updateTask, h, hf]

theorem mem_updateTask {ts : List Task} {id : Nat} {f : Task → Task} {u : Task}
    (h : u ∈ updateTask ts id f) :
    ∃ t ∈ ts, (t.id = id ∧ u = f t) ∨ (t.id ≠ id ∧ u = t) := by
  obtain ⟨t, ht, heq⟩ := List.mem_map.mp h
  refine ⟨t, ht, ?_⟩
  by_cases hid : t.id = id
  · exact Or.inl ⟨hid, by rw [← heq, if_pos hid]⟩
  · exact Or.inr ⟨hid, by rw [← heq, if_neg hid]⟩

theorem finalizeOk_id (c : Nat) (t : Task) : (finalizeOk c t).id = t.id := by
  simp only [finalizeOk]
  split <;> rfl

theorem finalizeOk_status (c : Nat) (t : Task) :
    (finalizeOk c t).status = .done ∨ (finalizeOk c t).status = .failed := by
  simp only [finalizeOk]
  split
  · exact Or.inl rfl
  · rename_i hcond
    exact Or.inr (not_not.mp hcond)

theorem finalizeOk_completed (c : Nat) (t : Task) :
    (finalizeOk c t).completed_at.isSome = true := by
  simp only [finalizeOk]
  split <;> rfl

theorem finalizeOk_done_progress (c : Nat) (t : Task)
    (h : (finalizeOk c t).status = .done) : (finalizeOk c t).progress = 100 := by
  by_cases hc : t.status = .failed
  · have hst : (finalizeOk c t).status = t.status := by simp [finalizeOk, hc]
    rw [hst, hc] at h
    simp at h
  · simp [finalizeOk, hc]

theorem finalizeErr_id (c : Nat) (m : String) (t : Task) : (finalizeErr c m t).id = t.id := by
  simp only [finalizeErr]
  split <;> rfl

theorem finalizeErr_status (c : Nat) (m : String) (t : Task) :
    (finalizeErr c m t).status = .failed := by
  simp only [finalizeErr]
  split
  · assumption
  · rfl

theorem finalizeErr_completed (c : Nat) (m : String) (t : Task) :
    (finalizeErr c m t).completed_at.isSome = true := by
  simp only [finalizeErr]
  split <;> rfl

theorem cancelRow_id (c : Nat) (id : Nat) (t : Task) : (cancelRow c id t).id = t.id := by
  simp only [cancelRow]
  split <;> rfl

theorem cancelRow_cases (c : Nat) (id : Nat) (t : Task) :
    (t.id = id ∧ (t.status = .queued ∨ t.status = .running) ∧
      cancelRow c id t = { t with status := .failed, result_json := some interruptedMsg,
                                  completed_at := some c }) ∨
    cancelRow c id t = t := by
  by_cases h : t.id = id ∧ (t.status = .queued ∨ t.status = .running)
  · exact Or.inl ⟨h.1, h.2, by simp [cancelRow, h]⟩
  · exact Or.inr (by simp [cancelRow, h])

theorem stopRow_cases (c : Nat) (t : Task) :
    ((t.status = .queued ∨ t.status = .running) ∧
      stopRow c t = { t with status := .failed, result_json := some globalStopMsg,
                             completed_at := some c }) ∨
    ((t.status ≠ .queued ∧ t.status ≠ .running) ∧ stopRow c t = t) := by
  by_cases h : t.status = .queued ∨ t.status = .running
  · exact Or.inl ⟨h, by simp [stopRow, h]⟩
  · refine Or.inr ⟨⟨fun hq => h (Or.inl hq), fun hr => h (Or.inr hr)⟩, by simp [stopRow, h]⟩

theorem stopRow_id (c : Nat) (t : Task) : (stopRow c t).id = t.id := by
  simp only [stopRow]
  split <;> rfl

theorem apply_enqueue (s : SchedState) (ty : String) :
    applyAction s (.enqueue ty) =
      { s with tasks := s.tasks ++ [newTaskRow s ty], nextId := s.nextId + 1 } := rfl

theorem apply_claim_busy {s : SchedState} {w : Nat} (hw : s.worker = some w) :
    applyAction s .claim = s := by
  simp [applyAction, hw]

theorem apply_claim_none {s : SchedState} (hw : s.worker = none)
    (hs : selectOldestQueued s.tasks = none) :
    applyAction s .claim = s := by
  simp [applyAction, hw, hs]

theorem apply_claim_some {s : SchedState} {t : Task} (hw : s.worker = none)
    (hs : selectOldestQueued s.tasks = some t) :
    applyAction s .claim =
      { s with tasks := updateTask s.tasks t.id
                 (fun u => { u with status := .running, started_at := some s.clock, progress := 0 }),
               worker := some t.id } := by
  simp [applyAction, hw, hs]

theorem apply_writeProgress_idle {s : SchedState} {p : Nat} (hw : s.worker = none) :
    applyAction s (.writeProgress p) = s := by
  simp [applyAction, hw]

theorem apply_writeProgress_busy {s : SchedState} {p : Nat} {id : Nat}
    (hw : s.worker = some id) :
    applyAction s (.writeProgress p) =
      { s with tasks := updateTask s.tasks id (fun u => { u with progress := p }) } := by
  simp [applyAction, hw]

theorem apply_finishOk_idle {s : SchedState} (hw : s.worker = none) :
    applyAction s .finishOk = s := by
  simp [applyAction, hw]

theorem apply_finishOk_busy {s : SchedState} {id : Nat} (hw : s.worker = some id) :
    applyAction s .finishOk =
      { s with tasks := updateTask s.tasks id (finalizeOk s.clock), worker := none } := by
  simp [applyAction, hw]

theorem apply_finishErr_idle {s : SchedState} {msg : String} (hw : s.worker = none) :
    applyAction s (.finishErr msg) = s := by
  simp [applyAction, hw]

theorem apply_finishErr_busy {s : SchedState} {msg : String} {id : Nat}
    (hw : s.worker = some id) :
    applyAction s (.finishErr msg) =
      { s with tasks := updateTask s.tasks id (finalizeErr s.clock msg), worker := none } := by
  simp [applyAction, hw]

theorem apply_cancel_zero (s : SchedState) :
    applyAction s (.cancel 0) = s := rfl

theorem apply_cancel {s : SchedState} {id : Nat} (hid : id ≠ 0) :
    applyAction s (.cancel id) = { s with tasks := s.tasks.map (cancelRow s.clock id) } := by
  simp [applyAction, hid]

theorem apply_stopAll (s : SchedState) :
    applyAction s .stopAll = { s with tasks := s.tasks.map (stopRow s.clock) } := rfl

theorem apply_deleteWhere (s : SchedState) (ids : List Nat) :
    applyAction s (.deleteWhere ids) =
      { s with tasks := s.tasks.filter (fun t => decide (t.id ∉ ids)) } := rfl

theorem apply_managerStop (s : SchedState) :
    applyAction s .managerStop = { s with managerRunning := false } := rfl

theorem apply_tick (s : SchedState) :
    applyAction s .tick = { s with clock := s.clock + 1 } := rfl

theorem nodup_ids_inj {ts : List Task} (hnd : (ts.map (fun t => t.id)).Nodup)
    {u v : Task} (hu : u ∈ ts) (hv : v ∈ ts) (he : u.id = v.id) : u = v := by
  induction ts with
  | nil => cases hu
  | cons a l ih =>
      simp only [List.map_cons, List.nodup_cons] at hnd
      rcases List.mem_cons.mp hu with rfl | hu2 <;> rcases List.mem_cons.mp hv with rfl | hv2
      · rfl
      · exact absurd (he ▸ List.mem_map_of_mem (fun t => t.id) hv2) hnd.1
      · exact absurd (he ▸ List.mem_map_of_mem (fun t => t.id) hu2) hnd.1
      · exact ih hnd.2 hu2 hv2

theorem inv_enqueue (s : SchedState) (ty : String) (hI : Inv s) :
    Inv (applyAction s (.enqueue ty)) := by
  obtain ⟨hnd, hnp, hpos, hlt, hwlt, hrc, hcs, hti, hdp⟩ := hI
  rw [apply_enqueue]
  refine ⟨?_, ?_, ?_, ?_, ?_, ?_, ?_, ?_, ?_⟩
  · simp only [List.map_append, List.map_cons, List.map_nil]
    rw [List.nodup_append]
    refine ⟨hnd, List.nodup_singleton _, ?_⟩
    intro x hx hx2
    simp only [List.mem_singleton] at hx2
    obtain ⟨t, ht, hid⟩ := List.mem_map.mp hx
    have h1 : t.id < s.nextId := hlt t ht
    replace hid : t.id = x := hid
    have h2 : x = s.nextId := hx2
    omega
  · exact Nat.succ_pos s.nextId
  · intro t ht
    rcases List.mem_append.mp ht with h | h
    · exact hpos t h
    · simp only [List.mem_singleton] at h
      subst h
      exact hnp
  · intro t ht
    rcases List.mem_append.mp ht with h | h
    · exact Nat.lt_succ_of_lt (hlt t h)
    · simp only [List.mem_singleton] at h
      subst h
      exact Nat.lt_succ_self _
  · intro w hw
    exact Nat.lt_succ_of_lt (hwlt w hw)
  · intro t ht hr
    rcases List.mem_append.mp ht with h | h
    · exact hrc t h hr
    · simp only [List.mem_singleton] at h
      subst h
      cases hr
  · intro id hid t ht hte
    rcases List.mem_append.mp ht with h | h
    · exact hcs id hid t h hte
    · simp only [List.mem_singleton] at h
      subst h
      have h1 : id < s.nextId := hwlt id hid
      have h2 : s.nextId = id := hte
      omega
  · intro t ht
    rcases List.mem_append.mp ht with h | h
    · exact hti t h
    · simp only [List.mem_singleton] at h
      subst h
      simp [newTaskRow]
  · intro t ht
    rcases List.mem_append.mp ht with h | h
    · exact hdp t h
    · simp only [List.mem_singleton] at h
      subst h
      intro hd
      cases hd

theorem inv_claim (s : SchedState) (hI : Inv s) : Inv (applyAction s .claim) := by
  obtain ⟨hnd, hnp, hpos, hlt, hwlt, hrc, hcs, hti, hdp⟩ := hI
  rcases hw : s.worker with _ | w
  · rcases hs : selectOldestQueued s.tasks with _ | t
    · rw [apply_claim_none hw hs]
      exact ⟨hnd, hnp, hpos, hlt, hwlt, hrc, hcs, hti, hdp⟩
    · obtain ⟨htmem, htq, _⟩ := selectOldestQueued_spec s.tasks t hs
      rw [apply_claim_some hw hs]
      have hfid : ∀ u : Task,
          ({ u with status := Status.running, started_at := some s.clock, progress := 0 } : Task).id
            = u.id := fun _ => rfl
      refine ⟨?_, hnp, ?_, ?_, ?_, ?_, ?_, ?_, ?_⟩
      · rw [updateTask_ids _ _ _ hfid]
        exact hnd
      · intro u hu
        obtain ⟨t0, ht0, hc⟩ := mem_updateTask hu
        rcases hc with ⟨_, rfl⟩ | ⟨_, rfl⟩
        · exact hpos t0 ht0
        · exact hpos u ht0
      · intro u hu
        obtain ⟨t0, ht0, hc⟩ := mem_updateTask hu
        rcases hc with ⟨_, rfl⟩ | ⟨_, rfl⟩
        · exact hlt t0 ht0
        · exact hlt u ht0
      · intro w2 hw2
        simp only [Option.some.injEq] at hw2
        subst hw2
        exact hlt t htmem
      · intro u hu hr
        obtain ⟨t0, ht0, hc⟩ := mem_updateTask hu
        rcases hc with ⟨hid, rfl⟩ | ⟨hid, rfl⟩
        · simp only [Option.some.injEq]
          exact hid.symm
        · exact absurd (hw ▸ hrc u ht0 hr) (by simp)
      · intro id hid u hu hue
        simp only [Option.some.injEq] at hid
        subst hid
        obtain ⟨t0, ht0, hc⟩ := mem_updateTask hu
        rcases hc with ⟨hid2, rfl⟩ | ⟨hid2, rfl⟩
        · exact Or.inl rfl
        · exact absurd hue hid2
      · intro u hu
        obtain ⟨t0, ht0, hc⟩ := mem_updateTask hu
        rcases hc with ⟨hid2, rfl⟩ | ⟨_, rfl⟩
        · have ht0t : t0 = t := nodup_ids_inj hnd ht0 htmem hid2
          constructor
          · intro hcontra
            rcases hcontra with h | h <;> cases h
          · intro hsome
            have hterm := (hti t0 ht0).mpr hsome
            have hq0 : t0.status = Status.queued := by rw [ht0t]; exact htq
            rw [hq0] at hterm
            rcases hterm with h | h <;> cases h
        · exact hti u ht0
      · intro u hu
        obtain ⟨t0, ht0, hc⟩ := mem_updateTask hu
        rcases hc with ⟨_, rfl⟩ | ⟨_, rfl⟩
        · intro hd
          cases hd
        · exact hdp u ht0
  · rw [apply_claim_busy hw]
    exact ⟨hnd, hnp, hpos, hlt, hwlt, hrc, hcs, hti, hdp⟩

theorem inv_writeProgress (s : SchedState) (p : Nat) (hI : Inv s) :
    Inv (applyAction s (.writeProgress p)) := by
  obtain ⟨hnd, hnp, hpos, hlt, hwlt, hrc, hcs, hti, hdp⟩ := hI
  rcases hw : s.worker with _ | id
  · rw [apply_writeProgress_idle hw]
    exact ⟨hnd, hnp, hpos, hlt, hwlt, hrc, hcs, hti, hdp⟩
  · rw [apply_writeProgress_busy hw]
    have hfid : ∀ u : Task, ({ u with progress := p } : Task).id = u.id := fun _ => rfl
    refine ⟨?_, hnp, ?_, ?_, ?_, ?_, ?_, ?_, ?_⟩
    · rw [updateTask_ids _ _ _ hfid]
      exact hnd
    · intro u hu
      obtain ⟨t0, ht0, hc⟩ := mem_updateTask hu
      rcases hc with ⟨_, rfl⟩ | ⟨_, rfl⟩
      · exact hpos t0 ht0
      · exact hpos u ht0
    · intro u hu
      obtain ⟨t0, ht0, hc⟩ := mem_updateTask hu
      rcases hc with ⟨_, rfl⟩ | ⟨_, rfl⟩
      · exact hlt t0 ht0
      · exact hlt u ht0
    · exact hwlt
    · intro u hu hr
      obtain ⟨t0, ht0, hc⟩ := mem_updateTask hu
      rcases hc with ⟨hid, rfl⟩ | ⟨_, rfl⟩
      · have hcl := hrc t0 ht0 hr
        rw [hcl, hid]
      · exact hrc u ht0 hr
    · intro id2 hid2 u hu hue
      have hid2e : id2 = id := by
        rw [hw] at hid2
        simpa using hid2.symm
      obtain ⟨t0, ht0, hc⟩ := mem_updateTask hu
      rcases hc with ⟨hid3, rfl⟩ | ⟨_, rfl⟩
      · exact hcs id2 hid2 t0 ht0 (by rw [hid3, hid2e])
      · exact hcs id2 hid2 u ht0 hue
    · intro u hu
      obtain ⟨t0, ht0, hc⟩ := mem_updateTask hu
      rcases hc with ⟨_, rfl⟩ | ⟨_, rfl⟩
      · exact hti t0 ht0
      · exact hti u ht0
    · intro u hu
      obtain ⟨t0, ht0, hc⟩ := mem_updateTask hu
      rcases hc with ⟨hid, rfl⟩ | ⟨_, rfl⟩
      · intro hd
        have hst := hcs id hw t0 ht0 hid
        rcases hst with h | h <;> rw [hd] at h <;> cases h
      · exact hdp u ht0

theorem inv_finishOk (s : SchedState) (hI : Inv s) : Inv (applyAction s .finishOk) := by
  obtain ⟨hnd, hnp, hpos, hlt, hwlt, hrc, hcs, hti, hdp⟩ := hI
  rcases hw : s.worker with _ | id
  · rw [apply_finishOk_idle hw]
    exact ⟨hnd, hnp, hpos, hlt, hwlt, hrc, hcs, hti, hdp⟩
  · rw [apply_finishOk_busy hw]
    refine ⟨?_, hnp, ?_, ?_, ?_, ?_, ?_, ?_, ?_⟩
    · rw [updateTask_ids _ _ _ (finalizeOk_id s.clock)]
      exact hnd
    · intro u hu
      obtain ⟨t0, ht0, hc⟩ := mem_updateTask hu
      rcases hc with ⟨_, rfl⟩ | ⟨_, rfl⟩
      · rw [finalizeOk_id]
        exact hpos t0 ht0
      · exact hpos u ht0
    · intro u hu
      obtain ⟨t0, ht0, hc⟩ := mem_updateTask hu
      rcases hc with ⟨_, rfl⟩ | ⟨_, rfl⟩
      · rw [finalizeOk_id]
        exact hlt t0 ht0
      · exact hlt u ht0
    · intro w hw2
      simp at hw2
    · intro u hu hr
      obtain ⟨t0, ht0, hc⟩ := mem_updateTask hu
      rcases hc with ⟨_, rfl⟩ | ⟨hne, rfl⟩
      · rcases finalizeOk_status s.clock t0 with h | h <;> rw [hr] at h <;> cases h
      · have hcl := hrc u ht0 hr
        rw [hw] at hcl
        simp only [Option.some.injEq] at hcl
        exact absurd hcl.symm hne
    · intro id2 hid2 u hu hue
      simp at hid2
    · intro u hu
      obtain ⟨t0, ht0, hc⟩ := mem_updateTask hu
      rcases hc with ⟨_, rfl⟩ | ⟨_, rfl⟩
      · constructor
        · intro _
          exact finalizeOk_completed s.clock t0
        · intro _
          exact finalizeOk_status s.clock t0
      · exact hti u ht0
    · intro u hu
      obtain ⟨t0, ht0, hc⟩ := mem_updateTask hu
      rcases hc with ⟨_, rfl⟩ | ⟨_, rfl⟩
      · exact finalizeOk_done_progress s.clock t0
      · exact hdp u ht0

theorem inv_finishErr (s : SchedState) (msg : String) (hI : Inv s) :
    Inv (applyAction s (.finishErr msg)) := by
  obtain ⟨hnd, hnp, hpos, hlt, hwlt, hrc, hcs, hti, hdp⟩ := hI
  rcases hw : s.worker with _ | id
  · rw [apply_finishErr_idle hw]
    exact ⟨hnd, hnp, hpos, hlt, hwlt, hrc, hcs, hti, hdp⟩
  · rw [apply_finishErr_busy hw]
    refine ⟨?_, hnp, ?_, ?_, ?_, ?_, ?_, ?_, ?_⟩
    · rw [updateTask_ids _ _ _ (finalizeErr_id s.clock msg)]
      exact hnd
    · intro u hu
      obtain ⟨t0, ht0, hc⟩ := mem_updateTask hu
      rcases hc with ⟨_, rfl⟩ | ⟨_, rfl⟩
      · rw [finalizeErr_id]
        exact hpos t0 ht0
      · exact hpos u ht0
    · intro u hu
      obtain ⟨t0, ht0, hc⟩ := mem_updateTask hu
      rcases hc with ⟨_, rfl⟩ | ⟨_, rfl⟩
      · rw [finalizeErr_id]
        exact hlt t0 ht0
      · exact hlt u ht0
    · intro w hw2
      simp at hw2
    · intro u hu hr
      obtain ⟨t0, ht0, hc⟩ := mem_updateTask hu
      rcases hc with ⟨_, rfl⟩ | ⟨hne, rfl⟩
      · rw [finalizeErr_status] at hr
        cases hr
      · have hcl := hrc u ht0 hr
        rw [hw] at hcl
        simp only [Option.some.injEq] at hcl
        exact absurd hcl.symm hne
    · intro id2 hid2 u hu hue
      simp at hid2
    · intro u hu
      obtain ⟨t0, ht0, hc⟩ := mem_updateTask hu
      rcases hc with ⟨_, rfl⟩ | ⟨_, rfl⟩
      · constructor
        · intro _
          exact finalizeErr_completed s.clock msg t0
        · intro _
          exact Or.inr (finalizeErr_status s.clock msg t0)
      · exact hti u ht0
    · intro u hu
      obtain ⟨t0, ht0, hc⟩ := mem_updateTask hu
      rcases hc with ⟨_, rfl⟩ | ⟨_, rfl⟩
      · intro hd
        rw [finalizeErr_status] at hd
        cases hd
      · exact hdp u ht0

theorem inv_cancel (s : SchedState) (id : Nat) (hI : Inv s) :
    Inv (applyAction s (.cancel id)) := by
  obtain ⟨hnd, hnp, hpos, hlt, hwlt, hrc, hcs, hti, hdp⟩ := hI
  by_cases hid0 : id = 0
  · subst hid0
    rw [apply_cancel_zero]
    exact ⟨hnd, hnp, hpos, hlt, hwlt, hrc, hcs, hti, hdp⟩
  · rw [apply_cancel hid0]
    refine ⟨?_, hnp, ?_, ?_, hwlt, ?_, ?_, ?_, ?_⟩
    · rw [map_ids_of_id_preserving (fun t _ => cancelRow_id s.clock id t)]
      exact hnd
    · intro u hu
      obtain ⟨t0, ht0, rfl⟩ := List.mem_map.mp hu
      rw [cancelRow_id]
      exact hpos t0 ht0
    · intro u hu
      obtain ⟨t0, ht0, rfl⟩ := List.mem_map.mp hu
      rw [cancelRow_id]
      exact hlt t0 ht0
    · intro u hu hr
      obtain ⟨t0, ht0, rfl⟩ := List.mem_map.mp hu
      rcases cancelRow_cases s.clock id t0 with ⟨hid1, hqr, heq⟩ | heq
      · rw [heq] at hr
        simp at hr
      · rw [heq] at hr ⊢
        exact hrc t0 ht0 hr
    · intro id2 hid2 u hu hue
      obtain ⟨t0, ht0, rfl⟩ := List.mem_map.mp hu
      rcases cancelRow_cases s.clock id t0 with ⟨hid1, hqr, heq⟩ | heq
      · rw [heq]
        exact Or.inr rfl
      · rw [heq] at hue ⊢
        exact hcs id2 hid2 t0 ht0 hue
    · intro u hu
      obtain ⟨t0, ht0, rfl⟩ := List.mem_map.mp hu
      rcases cancelRow_cases s.clock id t0 with ⟨hid1, hqr, heq⟩ | heq
      · rw [heq]
        simp
      · rw [heq]
        exact hti t0 ht0
    · intro u hu
      obtain ⟨t0, ht0, rfl⟩ := List.mem_map.mp hu
      rcases cancelRow_cases s.clock id t0 with ⟨hid1, hqr, heq⟩ | heq
      · rw [heq]
        intro hd
        simp at hd
      · rw [heq]
        exact hdp t0 ht0

theorem inv_stopAll (s : SchedState) (hI : Inv s) : Inv (applyAction s .stopAll) := by
  obtain ⟨hnd, hnp, hpos, hlt, hwlt, hrc, hcs, hti, hdp⟩ := hI
  rw [apply_stopAll]
  refine ⟨?_, hnp, ?_, ?_, hwlt, ?_, ?_, ?_, ?_⟩
  · rw [map_ids_of_id_preserving (fun t _ => stopRow_id s.clock t)]
    exact hnd
  · intro u hu
    obtain ⟨t0, ht0, rfl⟩ := List.mem_map.mp hu
    rw [stopRow_id]
    exact hpos t0 ht0
  · intro u hu
    obtain ⟨t0, ht0, rfl⟩ := List.mem_map.mp hu
    rw [stopRow_id]
    exact hlt t0 ht0
  · intro u hu hr
    obtain ⟨t0, ht0, rfl⟩ := List.mem_map.mp hu
    rcases stopRow_cases s.clock t0 with ⟨hqr, heq⟩ | ⟨_, heq⟩
    · rw [heq] at hr
      simp at hr
    · rw [heq] at hr ⊢
      exact hrc t0 ht0 hr
  · intro id2 hid2 u hu hue
    obtain ⟨t0, ht0, rfl⟩ := List.mem_map.mp hu
    rcases stopRow_cases s.clock t0 with ⟨hqr, heq⟩ | ⟨_, heq⟩
    · rw [heq]
      exact Or.inr rfl
    · rw [heq] at hue ⊢
      exact hcs id2 hid2 t0 ht0 hue
  · intro u hu
    obtain ⟨t0, ht0, rfl⟩ := List.mem_map.mp hu
    rcases stopRow_cases s.clock t0 with ⟨hqr, heq⟩ | ⟨_, heq⟩
    · rw [heq]
      simp
    · rw [heq]
      exact hti t0 ht0
  · intro u hu
    obtain ⟨t0, ht0, rfl⟩ := List.mem_map.mp hu
    rcases stopRow_cases s.clock t0 with ⟨hqr, heq⟩ | ⟨_, heq⟩
    · rw [heq]
      intro hd
      simp at hd
    · rw [heq]
      exact hdp t0 ht0

theorem inv_deleteWhere (s : SchedState) (ids : List Nat) (hI : Inv s) :
    Inv (applyAction s (.deleteWhere ids)) := by
  obtain ⟨hnd, hnp, hpos, hlt, hwlt, hrc, hcs, hti, hdp⟩ := hI
  rw [apply_deleteWhere]
  refine ⟨?_, hnp, ?_, ?_, hwlt, ?_, ?_, ?_, ?_⟩
  · exact List.Nodup.sublist (List.Sublist.map _ (List.filter_sublist _)) hnd
  · intro u hu
    exact hpos u (List.mem_of_mem_filter hu)
  · intro u hu
    exact hlt u (List.mem_of_mem_filter hu)
  · intro u hu hr
    exact hrc u (List.mem_of_mem_filter hu) hr
  · intro id2 hid2 u hu hue
    exact hcs id2 hid2 u (List.mem_of_mem_filter hu) hue
  · intro u hu
    exact hti u (List.mem_of_mem_filter hu)
  · intro u hu
    exact hdp u (List.mem_of_mem_filter hu)

theorem inv_applyAction (s : SchedState) (a : Action) (hI : Inv s) : Inv (applyAction s a) := by
  cases a with
  | enqueue ty => exact inv_enqueue s ty hI
  | claim => exact inv_claim s hI
  | writeProgress p => exact inv_writeProgress s p hI
  | finishOk => exact inv_finishOk s hI
  | finishErr msg => exact inv_finishErr s msg hI
  | cancel id => exact inv_cancel s id hI
  | stopAll => exact inv_stopAll s hI
  | deleteWhere ids => exact inv_deleteWhere s ids hI
  | managerStop =>
      obtain ⟨hnd, hnp, hpos, hlt, hwlt, hrc, hcs, hti, hdp⟩ := hI
      rw [apply_managerStop]
      exact ⟨hnd, hnp, hpos, hlt, hwlt, hrc, hcs, hti, hdp⟩
  | tick =>
      obtain ⟨hnd, hnp, hpos, hlt, hwlt, hrc, hcs, hti, hdp⟩ := hI
      rw [apply_tick]
      exact ⟨hnd, hnp, hpos, hlt, hwlt, hrc, hcs, hti, hdp⟩

theorem run_cons (s : SchedState) (a : Action) (acts : List Action) :
    run s (a :: acts) = run (applyAction s a) acts := rfl

theorem inv_run (s : SchedState) (acts : List Action) (hI : Inv s) : Inv (run s acts) := by
  induction acts generalizing s with
  | nil => exact hI
  | cons a acts ih => exact ih _ (inv_applyAction s a hI)

theorem inv_init : Inv initState := by
  refine ⟨?_, ?_, ?_, ?_, ?_, ?_, ?_, ?_, ?_⟩ <;> simp [initState]

theorem inv_reachable {s : SchedState} (h : Reachable s) : Inv s := by
  obtain ⟨acts, rfl⟩ := h
  exact inv_run _ _ inv_init

/-! ## Failed is an absorbing status -/

theorem finalizeOk_failed (c : Nat) (t : Task) (h : t.status = .failed) :
    (finalizeOk c t).status = .failed := by
  simp [finalizeOk, h]

theorem lookupTask_mem {s : SchedState} {id : Nat} {t : Task}
    (h : lookupTask s id = some t) : t ∈ s.tasks ∧ t.id = id := by
  refine ⟨List.mem_of_find?_eq_some h, ?_⟩
  have hp := List.find?_some h
  simpa using hp

theorem find?_map_id_preserving {ts : List Task} {g : Task → Task}
    (hg : ∀ t, (g t).id = t.id) (id : Nat) :
    (ts.map g).find? (fun t => t.id == id) =
      (ts.find? (fun t => t.id == id)).map g := by
  induction ts with
  | nil => rfl
  | cons a l ih =>
      simp only [List.map_cons, List.find?_cons]
      have hga : ((g a).id == id) = (a.id == id) := by rw [hg a]
      rw [hga]
      cases hb : (a.id == id) with
      | true => rfl
      | false => exact ih

theorem failedForever_apply {s : SchedState} {id : Nat} (a : Action)
    (h : FailedForever s id) : FailedForever (applyAction s a) id := by
  obtain ⟨hlt, hall⟩ := h
  cases a with
  | enqueue ty =>
      rw [apply_enqueue]
      refine ⟨Nat.lt_succ_of_lt hlt, ?_⟩
      intro t ht hid
      rcases List.mem_append.mp ht with h | h
      · exact hall t h hid
      · simp only [List.mem_singleton] at h
        subst h
        have h2 : s.nextId = id := hid
        omega
  | claim =>
      rcases hw : s.worker with _ | w
      · rcases hs : selectOldestQueued s.tasks with _ | t
        · rw [apply_claim_none hw hs]
          exact ⟨hlt, hall⟩
        · obtain ⟨htmem, htq, _⟩ := selectOldestQueued_spec s.tasks t hs
          rw [apply_claim_some hw hs]
          refine ⟨hlt, ?_⟩
          intro u hu hid
          obtain ⟨t0, ht0, hc⟩ := mem_updateTask hu
          rcases hc with ⟨hid2, rfl⟩ | ⟨_, rfl⟩
          · have hid3 : t0.id = id := hid
            have hfail : t0.status = .failed := hall t0 ht0 hid3
            have htid : t.id = id := by rw [← hid2, hid3]
            have : t.status = .failed := hall t htmem htid
            rw [htq] at this
            cases this
          · exact hall u ht0 hid
      · rw [apply_claim_busy hw]
        exact ⟨hlt, hall⟩
  | writeProgress p =>
      rcases hw : s.worker with _ | w
      · rw [apply_writeProgress_idle hw]
        exact ⟨hlt, hall⟩
      · rw [apply_writeProgress_busy hw]
        refine ⟨hlt, ?_⟩
        intro u hu hid
        obtain ⟨t0, ht0, hc⟩ := mem_updateTask hu
        rcases hc with ⟨_, rfl⟩ | ⟨_, rfl⟩
        · exact hall t0 ht0 hid
        · exact hall u ht0 hid
  | finishOk =>
      rcases hw : s.worker with _ | w
      · rw [apply_finishOk_idle hw]
        exact ⟨hlt, hall⟩
      · rw [apply_finishOk_busy hw]
        refine ⟨hlt, ?_⟩
        intro u hu hid
        obtain ⟨t0, ht0, hc⟩ := mem_updateTask hu
        rcases hc with ⟨_, rfl⟩ | ⟨_, rfl⟩
        · have hid3 : t0.id = id := by rw [← finalizeOk_id s.clock t0]; exact hid
          exact finalizeOk_failed s.clock t0 (hall t0 ht0 hid3)
        · exact hall u ht0 hid
  | finishErr msg =>
      rcases hw : s.worker with _ | w
      · rw [apply_finishErr_idle hw]
        exact ⟨hlt, hall⟩
      · rw [apply_finishErr_busy hw]
        refine ⟨hlt, ?_⟩
        intro u hu hid
        obtain ⟨t0, ht0, hc⟩ := mem_updateTask hu
        rcases hc with ⟨_, rfl⟩ | ⟨_, rfl⟩
        · exact finalizeErr_status s.clock msg t0
        · exact hall u ht0 hid
  | cancel cid =>
      by_cases hc0 : cid = 0
      · subst hc0
        rw [apply_cancel_zero]
        exact ⟨hlt, hall⟩
      · rw [apply_cancel hc0]
        refine ⟨hlt, ?_⟩
        intro u hu hid
        obtain ⟨t0, ht0, rfl⟩ := List.mem_map.mp hu
        rcases cancelRow_cases s.clock cid t0 with ⟨_, _, heq⟩ | heq
        · rw [heq]
        · rw [heq] at hid ⊢
          exact hall t0 ht0 hid
  | stopAll =>
      rw [apply_stopAll]
      refine ⟨hlt, ?_⟩
      intro u hu hid
      obtain ⟨t0, ht0, rfl⟩ := List.mem_map.mp hu
      rcases stopRow_cases s.clock t0 with ⟨_, heq⟩ | ⟨_, heq⟩
      · rw [heq]
      · rw [heq] at hid ⊢
        exact hall t0 ht0 hid
  | deleteWhere ids =>
      rw [apply_deleteWhere]
      refine ⟨hlt, ?_⟩
      intro u hu hid
      exact hall u (List.mem_of_mem_filter hu) hid
  | managerStop =>
      rw [apply_managerStop]
      exact ⟨hlt, hall⟩
  | tick =>
      rw [apply_tick]
      exact ⟨hlt, hall⟩

theorem failedForever_run {s : SchedState} {id : Nat} (acts : List Action)
    (h : FailedForever s id) : FailedForever (run s acts) id := by
  induction acts generalizing s with
  | nil => exact h
  | cons a acts ih => exact ih (failedForever_apply a h)

theorem failedForever_statusOf {s : SchedState} {id : Nat} (h : FailedForever s id) :
    statusOf s id = none ∨ statusOf s id = some .failed := by
  rcases hf : lookupTask s id with _ | t
  · left
    unfold statusOf
    rw [hf]
    rfl
  · right
    obtain ⟨hmem, hid⟩ := lookupTask_mem hf
    unfold statusOf
    rw [hf]
    simp [h.2 t hmem hid]

theorem failedForever_abortCheck {s : SchedState} {id : Nat} (h : FailedForever s id) :
    adapterStatusCheckAborts s id = true := by
  rcases hf : lookupTask s id with _ | t
  · unfold adapterStatusCheckAborts
    rw [hf]
  · obtain ⟨hmem, hid⟩ := lookupTask_mem hf
    unfold adapterStatusCheckAborts
    rw [hf]
    simp [h.2 t hmem hid]

/-! ## Consequences of interrupt_task and stop_all_tasks -/

theorem cancel_lookup {s : SchedState} {id : Nat} (hid0 : id ≠ 0) :
    lookupTask (applyAction s (.cancel id)) id =
      (lookupTask s id).map (cancelRow s.clock id) := by
  rw [apply_cancel hid0]
  exact find?_map_id_preserving (cancelRow_id s.clock id) id

theorem cancel_marks_failed {s : SchedState} {id : Nat} {t : Task}
    (hI : Inv s) (hl : lookupTask s id = some t)
    (hqr : t.status = .queued ∨ t.status = .running) :
    lookupTask (applyAction s (.cancel id)) id =
      some { t with status := .failed, result_json := some interruptedMsg,
                    completed_at := some s.clock } ∧
    FailedForever (applyAction s (.cancel id)) id := by
  obtain ⟨hmem, hid⟩ := lookupTask_mem hl
  have hid0 : id ≠ 0 := by
    have := hI.ids_pos t hmem
    omega
  have hrow : cancelRow s.clock id t =
      { t with status := .failed, result_json := some interruptedMsg,
               completed_at := some s.clock } := by
    rcases cancelRow_cases s.clock id t with ⟨_, _, heq⟩ | heq
    · exact heq
    · simp only [cancelRow, if_pos (And.intro hid hqr)] at heq ⊢
  constructor
  · rw [cancel_lookup hid0, hl]
    simp [hrow]
  · refine ⟨?_, ?_⟩
    · rw [apply_cancel hid0]
      show id < s.nextId
      have := hI.ids_lt t hmem
      omega
    · rw [apply_cancel hid0]
      intro u hu huid
      obtain ⟨t0, ht0, rfl⟩ := List.mem_map.mp hu
      have ht0id : t0.id = id := by
        have : (cancelRow s.clock id t0).id = t0.id := cancelRow_id s.clock id t0
        omega
      have ht0t : t0 = t := nodup_ids_inj hI.nodup ht0 hmem (by rw [ht0id, hid])
      subst ht0t
      rw [hrow]

theorem stopAll_marks {s : SchedState} {t : Task} (hmem : t ∈ s.tasks)
    (hqr : t.status = .queued ∨ t.status = .running) :
    ({ t with status := .failed, result_json := some globalStopMsg,
              completed_at := some s.clock } : Task) ∈ (applyAction s .stopAll).tasks := by
  rw [apply_stopAll]
  have hrow : stopRow s.clock t =
      { t with status := .failed, result_json := some globalStopMsg,
               completed_at := some s.clock } := by
    simp only [stopRow, if_pos hqr]
  rw [← hrow]
  exact List.mem_map_of_mem _ hmem

theorem clamp99_nonneg (x : ℚ) : 0 ≤ clamp99 x :=
  le_min (le_max_right x 0) (by norm_num)

theorem clamp99_le99 (x : ℚ) : clamp99 x ≤ 99 := min_le_right _ _

theorem clamp99_mono {x y : ℚ} (h : x ≤ y) : clamp99 x ≤ clamp99 y :=
  min_le_min (max_le_max h le_rfl) le_rfl

theorem clamp99_eq_self {x : ℚ} (h0 : 0 ≤ x) (h99 : x ≤ 99) : clamp99 x = x := by
  unfold clamp99
  rw [max_eq_left h0, min_eq_left h99]

theorem clamp99_le_self {x : ℚ} (h0 : 0 ≤ x) : clamp99 x ≤ x := by
  unfold clamp99
  rw [max_eq_left h0]
  exact min_le_left _ _

theorem divT_cast_mono (T : Nat) {a b : ℚ} (h : a ≤ b) :
    a / (T : ℚ) * 100 ≤ b / (T : ℚ) * 100 := by
  rcases Nat.eq_zero_or_pos T with hT | hT
  · subst hT
    simp
  · have hc : (0 : ℚ) < T := by exact_mod_cast hT
    have := (div_le_div_iff_of_pos_right hc).mpr h
    exact mul_le_mul_of_nonneg_right this (by norm_num)

theorem divT_nonneg (T : Nat) {a : ℚ} (h : 0 ≤ a) : 0 ≤ a / (T : ℚ) * 100 := by
  have hT : (0 : ℚ) ≤ T := Nat.cast_nonneg T
  positivity

theorem viewsGood_init (T : Nat) : ViewsGood T viewsInit := by
  refine ⟨le_refl 0, by norm_num [viewsInit], ?_⟩
  exact clamp99_nonneg _

theorem viewsStep_spec (T : Nat) (st : ViewsState) (e : ViewsEvent)
    (hok : ViewsEventOk e) (hg : ViewsGood T st) :
    ViewsGood T (viewsStep T st e).1 ∧
    viewsBound T st ≤ viewsBound T (viewsStep T st e).1 ∧
    ∀ x ∈ (viewsStep T st e).2, x = viewsBound T (viewsStep T st e).1 := by
  obtain ⟨hg0, hg99, hgnext⟩ := hg
  cases e with
  | prog v m =>
      by_cases hm : 0 < m
      · obtain ⟨hv0, hvm⟩ := hok hm
        have hstep : viewsStep T st (.prog v m) =
            ({ st with last_progress :=
                 clamp99 (max (((st.views_done : ℚ) + v / m) / (T : ℚ) * 100) st.last_progress) },
             [clamp99 (max (((st.views_done : ℚ) + v / m) / (T : ℚ) * 100) st.last_progress)]) := by
          simp [viewsStep, if_pos hm]
        rw [hstep]
        have hnp0 : 0 ≤ v / m := div_nonneg hv0 (le_of_lt hm)
        have hnp1 : v / m ≤ 1 := (div_le_one hm).mpr hvm
        have hd0 : (0 : ℚ) ≤ (st.views_done : ℚ) := Nat.cast_nonneg _
        have hraw_lo : (st.views_done : ℚ) / (T : ℚ) * 100 ≤
            ((st.views_done : ℚ) + v / m) / (T : ℚ) * 100 :=
          divT_cast_mono T (by linarith)
        have hraw_hi : ((st.views_done : ℚ) + v / m) / (T : ℚ) * 100 ≤
            ((st.views_done : ℚ) + 1) / (T : ℚ) * 100 :=
          divT_cast_mono T (by linarith)
        have hX0 : 0 ≤ ((st.views_done : ℚ) + 1) / (T : ℚ) * 100 :=
          divT_nonneg T (by linarith)
        have hlastX : st.last_progress ≤ ((st.views_done : ℚ) + 1) / (T : ℚ) * 100 :=
          le_trans hgnext (clamp99_le_self hX0)
        have hgp_ge_last : st.last_progress ≤
            clamp99 (max (((st.views_done : ℚ) + v / m) / (T : ℚ) * 100) st.last_progress) := by
          calc st.last_progress = clamp99 st.last_progress := (clamp99_eq_self hg0 hg99).symm
            _ ≤ _ := clamp99_mono (le_max_right _ _)
        have hgp_ge_floor : clamp99 ((st.views_done : ℚ) / (T : ℚ) * 100) ≤
            clamp99 (max (((st.views_done : ℚ) + v / m) / (T : ℚ) * 100) st.last_progress) :=
          clamp99_mono (le_trans hraw_lo (le_max_left _ _))
        refine ⟨⟨clamp99_nonneg _, clamp99_le99 _, ?_⟩, ?_, ?_⟩
        · exact clamp99_mono (max_le hraw_hi hlastX)
        · exact max_le (le_trans hgp_ge_last (le_max_left _ _))
            (le_trans hgp_ge_floor (le_max_left _ _))
        · intro x hx
          simp only [List.mem_singleton] at hx
          subst hx
          exact (max_eq_left hgp_ge_floor).symm
      · have hstep : viewsStep T st (.prog v m) = (st, []) := by
          simp [viewsStep, if_neg hm]
        rw [hstep]
        exact ⟨⟨hg0, hg99, hgnext⟩, le_refl _, by simp⟩
  | nodeFinished ok =>
      have hc1 : ((st.views_done + 1 : Nat) : ℚ) = (st.views_done : ℚ) + 1 := by
        push_cast
        ring
      have hnext2 : st.last_progress ≤
          clamp99 ((((st.views_done + 1 : Nat) : ℚ) + 1) / (T : ℚ) * 100) := by
        rw [hc1]
        exact le_trans hgnext (clamp99_mono (divT_cast_mono T (by linarith)))
      have hbnd : viewsBound T st ≤
          viewsBound T { st with views_done := st.views_done + 1 } := by
        unfold viewsBound
        refine max_le_max le_rfl (clamp99_mono (divT_cast_mono T ?_))
        rw [hc1]
        linarith
      have hemit : clamp99 (((st.views_done + 1 : Nat) : ℚ) / (T : ℚ) * 100) =
          viewsBound T { st with views_done := st.views_done + 1 } := by
        unfold viewsBound
        refine (max_eq_right ?_).symm
        rw [hc1]
        exact hgnext
      cases ok with
      | true =>
          have hstep : viewsStep T st (.nodeFinished true) =
              ({ st with views_done := st.views_done + 1 },
               [clamp99 (((st.views_done + 1 : Nat) : ℚ) / (T : ℚ) * 100)]) := by
            simp [viewsStep]
          rw [hstep]
          refine ⟨⟨hg0, hg99, hnext2⟩, hbnd, ?_⟩
          intro x hx
          simp only [List.mem_singleton] at hx
          subst hx
          exact hemit
      | false =>
          have hstep : viewsStep T st (.nodeFinished false) =
              ({ st with views_done := st.views_done + 1 }, []) := by
            simp [viewsStep]
          rw [hstep]
          exact ⟨⟨hg0, hg99, hnext2⟩, hbnd, by simp⟩

theorem viewsStep_emit (T : Nat) (st : ViewsState) (e : ViewsEvent) :
    (viewsStep T st e).2 = [] ∨ ∃ x, (viewsStep T st e).2 = [x] := by
  cases e with
  | prog v m =>
      by_cases hm : 0 < m
      · right
        refine ⟨clamp99 (max (((st.views_done : ℚ) + v / m) / (T : ℚ) * 100) st.last_progress), ?_⟩
        simp [viewsStep, if_pos hm]
      · exact Or.inl (by simp [viewsStep, if_neg hm])
  | nodeFinished ok =>
      cases ok
      · exact Or.inl (by simp [viewsStep])
      · right
        refine ⟨clamp99 (((st.views_done + 1 : Nat) : ℚ) / (T : ℚ) * 100), ?_⟩
        simp [viewsStep]

theorem viewsTrace_spec (T : Nat) :
    ∀ (events : List ViewsEvent) (st : ViewsState),
      (∀ e ∈ events, ViewsEventOk e) → ViewsGood T st →
      List.Chain' (· ≤ ·) (viewsTrace T st events) ∧
      ∀ x ∈ viewsTrace T st events, viewsBound T st ≤ x := by
  intro events
  induction events with
  | nil =>
      intro st _ _
      exact ⟨List.chain'_nil, by simp [viewsTrace]⟩
  | cons e rest ih =>
      intro st hoks hg
      obtain ⟨hg2, hbnd, hemit⟩ :=
        viewsStep_spec T st e (hoks e (List.mem_cons_self e rest)) hg
      obtain ⟨hchain, hlow⟩ :=
        ih (viewsStep T st e).1 (fun x hx => hoks x (List.mem_cons_of_mem e hx)) hg2
      have htr : viewsTrace T st (e :: rest) =
          (viewsStep T st e).2 ++ viewsTrace T (viewsStep T st e).1 rest := rfl
      rcases viewsStep_emit T st e with hes | ⟨x, hes⟩
      · rw [htr, hes, List.nil_append]
        refine ⟨hchain, ?_⟩
        intro y hy
        exact le_trans hbnd (hlow y hy)
      · rw [htr, hes, List.singleton_append]
        have hx1 : x = viewsBound T (viewsStep T st e).1 :=
          hemit x (by rw [hes]; exact List.mem_singleton_self x)
        constructor
        · rw [List.chain'_cons']
          refine ⟨?_, hchain⟩
          intro h hh
          have hmem : h ∈ viewsTrace T (viewsStep T st e).1 rest :=
            List.mem_of_mem_head? hh
          rw [hx1]
          exact hlow h hmem
        · intro y hy
          rcases List.mem_cons.mp hy with rfl | hy2
          · rw [hx1]
            exact hbnd
          · exact le_trans hbnd (hlow y hy2)

theorem batchAux_abort (env : BatchEnv) :
    ∀ (ps : List BatchPlayer) (i k : Nat) (p : BatchPlayer) (rj : Option String),
      ps[k]? = some p → p.status = "draft" →
      env.promptOutcome (i + k) = .failure rj → resultHasGlobalStop rj = true →
      ∀ e ∈ batchGenBaseAux env i ps, e.idx ≤ i + k ∧ e ≠ .submitBase (i + k) := by
  intro ps
  induction ps with
  | nil =>
      intro i k p rj hp
      simp at hp
  | cons p0 rest ih =>
      intro i k p rj hp hd ho htag e he
      cases k with
      | zero =>
          have hp0 : p0 = p := by simpa using hp
          subst hp0
          have hnds : ¬(p0.status = "done" ∨ p0.status = "ready") := by
            rw [hd]
            simp
          rw [batchGenBaseAux, if_neg hnds, if_pos hd] at he
          have hi0 : i + 0 = i := by omega
          rw [hi0]
          rw [show env.promptOutcome i = StageOutcome.failure rj from hi0 ▸ ho] at he
          dsimp only at he
          rw [if_pos htag] at he
          rcases List.mem_cons.mp he with rfl | he2
          · exact ⟨by simp [BatchEvent.idx], by simp⟩
          · rcases List.mem_singleton.mp he2 with rfl
            exact ⟨by simp [BatchEvent.idx], by simp⟩
      | succ k2 =>
          simp only [List.getElem?_cons_succ] at hp
          have hrec : ∀ e ∈ batchGenBaseAux env (i + 1) rest,
              e.idx ≤ i + (k2 + 1) ∧ e ≠ .submitBase (i + (k2 + 1)) := by
            intro e2 he2
            have h3 := ih (i + 1) k2 p rj hp hd (by rw [show i + 1 + k2 = i + (k2 + 1) by omega]; exact ho)
              htag e2 he2
            rw [show i + 1 + k2 = i + (k2 + 1) by omega] at h3
            exact h3
          rw [batchGenBaseAux] at he
          by_cases h1 : p0.status = "done" ∨ p0.status = "ready"
          · rw [if_pos h1] at he
            rcases List.mem_cons.mp he with rfl | he2
            · exact ⟨by simp only [BatchEvent.idx]; omega, by simp⟩
            · exact hrec e he2
          · rw [if_neg h1] at he
            by_cases h2 : p0.status = "draft"
            · rw [if_pos h2] at he
              rcases List.mem_cons.mp he with rfl | he2
              · exact ⟨by simp only [BatchEvent.idx]; omega, by simp⟩
              · rcases hpo : env.promptOutcome i with _ | rj0
                · rw [hpo] at he2
                  dsimp only at he2
                  rcases List.mem_cons.mp he2 with rfl | he3
                  · refine ⟨by simp only [BatchEvent.idx]; omega, ?_⟩
                    simp only [ne_eq, BatchEvent.submitBase.injEq]
                    omega
                  · rcases hbo : env.baseOutcome i with _ | rj1
                    · rw [hbo] at he3
                      dsimp only at he3
                      exact hrec e he3
                    · rw [hbo] at he3
                      dsimp only at he3
                      by_cases htag1 : resultHasGlobalStop rj1 = true
                      · rw [if_pos htag1] at he3
                        rcases List.mem_singleton.mp he3 with rfl
                        exact ⟨by simp only [BatchEvent.idx]; omega, by simp⟩
                      · rw [if_neg htag1] at he3
                        exact hrec e he3
                · rw [hpo] at he2
                  dsimp only at he2
                  by_cases htag0 : resultHasGlobalStop rj0 = true
                  · rw [if_pos htag0] at he2
                    rcases List.mem_singleton.mp he2 with rfl
                    exact ⟨by simp only [BatchEvent.idx]; omega, by simp⟩
                  · rw [if_neg htag0] at he2
                    exact hrec e he2
            · rw [if_neg h2] at he
              exact hrec e he

theorem mergeLoop_iter (env : MergeEnv) (total idx : Nat) (step : PlanStep)
    (rest : List PlanStep) (st : LoopState) (hrun : env.running = true)
    {p : Player} {img : String}
    (hp : resolvePlayer env.players step = some p)
    (himg : resolveImage p (viewKeyOf step) = some img) :
    mergeLoop env total idx (step :: rest) st =
      (match env.backend st.subCount with
       | .error _ =>
           ({ current := st.current, scene_merged := st.scene_merged,
              records := st.records ++ [mergeEntry idx step p img],
              subCount := st.subCount,
              trace := st.trace ++ [idx * 100 / total] }, false)
       | .ok artifact =>
           mergeLoop env total (idx + 1) rest
             { current := artifact, scene_merged := some artifact,
               records := st.records ++ [mergeEntry idx step p img],
               subCount := st.subCount + 1,
               trace := st.trace ++ [idx * 100 / total] }) := by
  simp only [mergeLoop]
  rw [if_neg (by rw [hrun]; simp), hp]
  dsimp only
  rw [himg]

theorem mergeLoop_ok (env : MergeEnv) (total : Nat) (hrun : env.running = true)
    (arts : Nat → String) (hback : ∀ n, env.backend n = .ok (arts n)) :
    ∀ (steps : List PlanStep) (idx : Nat) (st : LoopState),
      (∀ step ∈ steps, Resolves env.players step) →
      ∃ st2, mergeLoop env total idx steps st = (st2, true) ∧
        st2.subCount = st.subCount + steps.length ∧
        st2.records.map (fun r => r.step_index) =
          st.records.map (fun r => r.step_index) ++ List.range' idx steps.length ∧
        st2.current = (if steps.length = 0 then st.current
                       else arts (st.subCount + steps.length - 1)) ∧
        st2.scene_merged = (if steps.length = 0 then st.scene_merged
                            else some (arts (st.subCount + steps.length - 1))) := by
  intro steps
  induction steps with
  | nil =>
      intro idx st _
      exact ⟨st, rfl, by simp, by simp, by simp, by simp⟩
  | cons step rest ih =>
      intro idx st hres
      obtain ⟨p, img, hp, himg⟩ := hres step (List.mem_cons_self _ _)
      rw [mergeLoop_iter env total idx step rest st hrun hp himg, hback st.subCount]
      dsimp only
      obtain ⟨st2, heq, hsub, hrecs, hcur, hmrg⟩ :=
        ih (idx + 1)
          { current := arts st.subCount, scene_merged := some (arts st.subCount),
            records := st.records ++ [mergeEntry idx step p img],
            subCount := st.subCount + 1,
            trace := st.trace ++ [idx * 100 / total] }
          (fun s hs => hres s (List.mem_cons_of_mem step hs))
      refine ⟨st2, heq, ?_, ?_, ?_, ?_⟩
      · simp only at hsub
        simp only [List.length_cons]
        omega
      · simp only [List.map_append, List.map_cons, List.map_nil, mergeEntry] at hrecs
        rw [hrecs]
        simp only [List.length_cons, List.range'_succ]
        simp
      · simp only at hcur
        simp only [List.length_cons]
        rcases Nat.eq_zero_or_pos rest.length with h0 | hpos
        · rw [h0] at hcur
          simp only [if_pos rfl] at hcur
          rw [hcur, h0]
          simp
        · rw [if_neg (by omega)] at hcur
          rw [hcur, if_neg (by omega)]
          congr 1
          omega
      · simp only at hmrg
        simp only [List.length_cons]
        rcases Nat.eq_zero_or_pos rest.length with h0 | hpos
        · rw [h0] at hmrg
          simp only [if_pos rfl] at hmrg
          rw [hmrg, h0]
          simp
        · rw [if_neg (by omega)] at hmrg
          rw [hmrg, if_neg (by omega)]
          congr 2
          omega

theorem mergeLoop_fail (env : MergeEnv) (total : Nat) (hrun : env.running = true)
    (arts : Nat → String) :
    ∀ (steps : List PlanStep) (k idx : Nat) (st : LoopState),
      k < steps.length →
      (∀ step ∈ steps, Resolves env.players step) →
      (∀ n, n < k → env.backend (st.subCount + n) = .ok (arts (st.subCount + n))) →
      env.backend (st.subCount + k) = .error () →
      ∃ st2, mergeLoop env total idx steps st = (st2, false) ∧
        st2.scene_merged = (if k = 0 then st.scene_merged
                            else some (arts (st.subCount + k - 1))) := by
  intro steps
  induction steps with
  | nil =>
      intro k idx st hk
      simp at hk
  | cons step rest ih =>
      intro k idx st hk hres hok herr
      obtain ⟨p, img, hp, himg⟩ := hres step (List.mem_cons_self _ _)
      rw [mergeLoop_iter env total idx step rest st hrun hp himg]
      cases k with
      | zero =>
          have herr0 : env.backend st.subCount = .error () := by
            simpa using herr
          rw [herr0]
          dsimp only
          exact ⟨_, rfl, by simp⟩
      | succ k2 =>
          have hok0 : env.backend st.subCount = .ok (arts st.subCount) := by
            have := hok 0 (by omega)
            simpa using this
          rw [hok0]
          dsimp only
          obtain ⟨st2, heq, hmrg⟩ :=
            ih k2 (idx + 1)
              { current := arts st.subCount, scene_merged := some (arts st.subCount),
                records := st.records ++ [mergeEntry idx step p img],
                subCount := st.subCount + 1,
                trace := st.trace ++ [idx * 100 / total] }
              (by simp only [List.length_cons] at hk; omega)
              (fun s hs => hres s (List.mem_cons_of_mem step hs))
              (by
                intro n hn
                have := hok (n + 1) (by omega)
                simp only
                rw [show st.subCount + 1 + n = st.subCount + (n + 1) by omega]
                exact this)
              (by
                simp only
                rw [show st.subCount + 1 + k2 = st.subCount + (k2 + 1) by omega]
                exact herr)
          refine ⟨st2, heq, ?_⟩
          simp only at hmrg
          rcases Nat.eq_zero_or_pos k2 with h0 | hpos
          · rw [h0] at hmrg
            norm_num at hmrg
            rw [hmrg, if_neg (Nat.succ_ne_zero k2)]
            congr 2
            omega
          · rw [if_neg (show ¬(k2 = 0) by omega)] at hmrg
            rw [hmrg, if_neg (Nat.succ_ne_zero k2)]
            congr 2
            omega

theorem resolveImage_isSome (p : Player) (key : String)
    (hbase : p.base_image_path.isSome) : (resolveImage p key).isSome := by
  unfold resolveImage
  by_cases he : p.views.isEmpty = true
  · rw [if_pos he]
    simpa using hbase
  · rw [if_neg he]
    rcases h1 : lookupView p.views key with _ | i1
    · dsimp only
      rcases h2 : lookupView p.views "right45" with _ | i2
      · dsimp only
        rcases h3 : lookupView p.views "front" with _ | i3
        · dsimp only
          cases hv : p.views with
          | nil =>
              rw [hv] at he
              simp at he
          | cons kv rest => simp
        · simp
      · simp
    · simp

theorem fallback_resolves (players : List Player)
    (hids : ∀ p ∈ players, p.id ≠ 0)
    (hbase : ∀ p ∈ players, p.base_image_path.isSome) :
    ∀ step ∈ fallbackPlan players, Resolves players step := by
  intro step hstep
  obtain ⟨p, hpmem, rfl⟩ := List.mem_map.mp hstep
  have hfs : (players.find? (fun q => some q.id == (fallbackStep p).player_id)).isSome := by
    rw [List.find?_isSome]
    exact ⟨p, hpmem, by simp [fallbackStep]⟩
  obtain ⟨q, hq⟩ := Option.isSome_iff_exists.mp hfs
  have hqmem : q ∈ players := List.mem_of_find?_eq_some hq
  have himg : (resolveImage q (viewKeyOf (fallbackStep p))).isSome :=
    resolveImage_isSome q _ (hbase q hqmem)
  obtain ⟨img, himg2⟩ := Option.isSome_iff_exists.mp himg
  refine ⟨q, img, ?_, himg2⟩
  unfold resolvePlayer
  have htr : truthyId (fallbackStep p).player_id = true := by
    simp only [fallbackStep, truthyId, bne_iff_ne, ne_eq]
    exact hids p hpmem
  rw [if_pos htr, hq]

theorem handleSceneMerge_loop (env : MergeEnv) (scene : SceneState) {base : String}
    (hbase : scene.base_image_path = some base)
    (hplayers : env.players.isEmpty = false)
    (htotal : (plannedSteps env).length ≠ 0) :
    handleSceneMerge env scene =
      (match mergeLoop env (plannedSteps env).length 0 (plannedSteps env)
          { current := base, scene_merged := scene.merged_image_path,
            records := [], subCount := 0, trace := [] } with
       | (st, true) =>
           { ok := true,
             scene := { scene with
                          merged_image_path := some st.current,
                          merged_prompts := some st.records,
                          status := "completed" },
             progressWrites := [5, 10] ++ st.trace ++ [100],
             submissions := st.subCount }
       | (st, false) =>
           { ok := false,
             scene := { scene with merged_image_path := st.scene_merged },
             progressWrites := [5, 10] ++ st.trace,
             submissions := st.subCount }) := by
  unfold handleSceneMerge
  rw [hbase]
  dsimp only
  rw [if_neg (by rw [hplayers]; simp)]
  rw [if_neg htotal]

/-! ## Remaining helper lemmas -/

theorem length_le_one_of_all_eq {l : List Task} {w : Nat}
    (hnd : (l.map (fun t => t.id)).Nodup) (hall : ∀ t ∈ l, t.id = w) : l.length ≤ 1 := by
  cases l with
  | nil => simp
  | cons a l2 =>
      cases l2 with
      | nil => simp
      | cons b l3 =>
          exfalso
          simp only [List.map_cons, List.nodup_cons, List.mem_cons, List.mem_map] at hnd
          have ha : a.id = w := hall a (by simp)
          have hb : b.id = w := hall b (by simp)
          exact hnd.1 (Or.inl (by rw [ha, hb]))

theorem cancel_noop {s : SchedState} {id : Nat}
    (hterm : ∀ t ∈ s.tasks, t.id = id → (t.status = .done ∨ t.status = .failed)) :
    applyAction s (.cancel id) = s := by
  by_cases h0 : id = 0
  · subst h0
    exact apply_cancel_zero s
  · rw [apply_cancel h0]
    have hmap : s.tasks.map (cancelRow s.clock id) = s.tasks := by
      apply map_eq_self
      intro t ht
      rcases cancelRow_cases s.clock id t with ⟨hid1, hqr, _⟩ | heq
      · rcases hterm t ht hid1 with h | h <;> rcases hqr with h2 | h2 <;> rw [h] at h2 <;> cases h2
      · exact heq
    rw [hmap]

/-! ## Claims -/

/-- Claim C1: at most one Task is in status "running" at any instant.  In
every reachable scheduler state — under any interleaving of enqueues,
worker-loop events, cancellations, global stops and deletions — the set of
task rows whose status is "running" has size at most one: the single
worker loop claims the oldest queued task, drives it to a terminal status
and only then claims another. -/
theorem singleFlight_invariant (s : SchedState) (h : Reachable s) : countRunning s ≤ 1 := by
  have hI := inv_reachable h
  unfold countRunning
  rcases hw : s.worker with _ | w
  · have hnil : s.tasks.filter (fun t => decide (t.status = .running)) = [] := by
      rw [List.filter_eq_nil_iff]
      intro t ht
      simp only [decide_eq_true_eq]
      intro hr
      rw [hI.running_claimed t ht hr] at hw
      cases hw
    rw [hnil]
    simp
  · refine length_le_one_of_all_eq (w := w) ?_ ?_
    · exact List.Nodup.sublist (List.Sublist.map _ (List.filter_sublist _)) hI.nodup
    · intro t ht
      have hmem := List.mem_of_mem_filter ht
      have hr : t.status = .running := by
        have hp := List.of_mem_filter ht
        simpa using hp
      have hcl := hI.running_claimed t hmem hr
      rw [hw] at hcl
      simpa using hcl.symm

/-- Concrete instantiation of claim C1: after enqueuing two tasks and one
worker claim, exactly one task is running. -/
theorem singleFlight_invariant_witness :
    countRunning (run initState
      [Action.enqueue "GEN_PROMPT", Action.claim, Action.enqueue "GEN_BASE"]) = 1 ∧
    countRunning (run initState
      [Action.enqueue "GEN_PROMPT", Action.claim, Action.enqueue "GEN_BASE"]) ≤ 1 :=
  ⟨by decide, singleFlight_invariant _ ⟨_, rfl⟩⟩

/-- Claim C3: terminal consistency.  In every reachable scheduler state —
hence after every operation that mutates a Task: worker-loop
finalization, single-task cancellation through POST /tasks/interrupt, and
global stop through POST /tasks/stop_all — a task's status is done or
failed exactly when its completed_at is set, and a done task has
progress 100. -/
theorem terminal_consistency (s : SchedState) (h : Reachable s) : TerminalConsistent s := by
  have hI := inv_reachable h
  intro t ht
  exact ⟨hI.terminal_iff t ht, hI.done_progress t ht⟩

/-- Concrete instantiation of claim C3: a state holding one finished task
and one cancelled task is terminally consistent, and both rows are
terminal. -/
theorem terminal_consistency_witness :
    TerminalConsistent (run initState
      [Action.enqueue "GEN_PROMPT", Action.claim, Action.finishOk,
       Action.enqueue "GEN_BASE", Action.cancel 2]) ∧
    statusOf (run initState
      [Action.enqueue "GEN_PROMPT", Action.claim, Action.finishOk,
       Action.enqueue "GEN_BASE", Action.cancel 2]) 1 = some Status.done ∧
    statusOf (run initState
      [Action.enqueue "GEN_PROMPT", Action.claim, Action.finishOk,
       Action.enqueue "GEN_BASE", Action.cancel 2]) 2 = some Status.failed :=
  ⟨terminal_consistency _ ⟨_, rfl⟩, by decide, by decide⟩

/-- Claim C5: after a global stop every previously queued or running task
row is failed and carries the result tag "Stopped by user (Global Stop)",
which is detectable by the substring check the batch supervisor uses and
distinct from the single-task cancellation message; and a batch chain
that observes the tag on a failed task aborts the whole batch: no event
of the run is for a later item, and the failed item's next stage is never
submitted. -/
theorem globalStop_abort (s : SchedState) (t : Task)
    (hmem : t ∈ s.tasks) (hqr : t.status = .queued ∨ t.status = .running)
    (env : BatchEnv) (k : Nat) (p : BatchPlayer) (rj : Option String)
    (hp : env.players[k]? = some p) (hd : p.status = "draft")
    (ho : env.promptOutcome k = .failure rj) (htag : resultHasGlobalStop rj = true) :
    (({ t with status := .failed, result_json := some globalStopMsg,
               completed_at := some s.clock } : Task) ∈ (applyAction s .stopAll).tasks) ∧
    resultHasGlobalStop (some globalStopMsg) = true ∧
    resultHasGlobalStop (some interruptedMsg) = false ∧
    (∀ e ∈ processBatchGenBase env, e.idx ≤ k ∧ e ≠ .submitBase k) := by
  refine ⟨stopAll_marks hmem hqr, by decide, by decide, ?_⟩
  intro e he
  have habort := batchAux_abort env env.players 0 k p rj hp hd
    (by rw [Nat.zero_add]; exact ho) htag e he
  rw [Nat.zero_add] at habort
  exact habort

/-- Claim C9: FIFO dequeue order.  Whenever the worker loop's queue query
selects a task, that task is queued with minimal creation time among all
queued tasks — no priority scheme reorders tasks — and the claim
transition hands the worker exactly that task. -/
theorem fifo_dequeue_order (s : SchedState) (t : Task)
    (hw : s.worker = none)
    (hs : selectOldestQueued s.tasks = some t) :
    t ∈ s.tasks ∧ t.status = .queued ∧
    (∀ u ∈ s.tasks, u.status = .queued → t.created_at ≤ u.created_at) ∧
    (applyAction s .claim).worker = some t.id := by
  obtain ⟨hmem, hq, hmin⟩ := selectOldestQueued_spec s.tasks t hs
  refine ⟨hmem, hq, hmin, ?_⟩
  rw [apply_claim_some hw hs]

/-- Concrete instantiation of claim C9: among two queued tasks created at
ticks 0 and 1, the queue query picks the older one and the claim
transition assigns it to the worker. -/
theorem fifo_dequeue_order_witness :
    selectOldestQueued (run initState
      [Action.enqueue "GEN_PROMPT", Action.tick, Action.enqueue "GEN_BASE"]).tasks =
      some { id := 1, task_type := "GEN_PROMPT", status := Status.queued, progress := 0,
             result_json := none, error := none, created_at := 0, started_at := none,
             completed_at := none, duration := none } ∧
    (applyAction (run initState
      [Action.enqueue "GEN_PROMPT", Action.tick, Action.enqueue "GEN_BASE"]) .claim).worker =
      some 1 :=
  ⟨by decide,
   (fifo_dequeue_order (run initState
      [Action.enqueue "GEN_PROMPT", Action.tick, Action.enqueue "GEN_BASE"])
      { id := 1, task_type := "GEN_PROMPT", status := Status.queued, progress := 0,
        result_json := none, error := none, created_at := 0, started_at := none,
        completed_at := none, duration := none } rfl (by decide)).2.2.2⟩

/-- Claim C10: cancelling an already-terminal task (or a task id that
matches no row) through POST /tasks/interrupt leaves every task record —
status, result, error, completed_at and all other columns — unchanged. -/
theorem cancel_terminal_noop (s : SchedState) (id : Nat) (hR : Reachable s)
    (hterm : lookupTask s id = none ∨
      ∃ t, lookupTask s id = some t ∧ (t.status = .done ∨ t.status = .failed)) :
    applyAction s (.cancel id) = s := by
  have hI := inv_reachable hR
  refine cancel_noop ?_
  intro t ht hid
  rcases hterm with hnone | ⟨t0, hl, hterm0⟩
  · have hno := List.find?_eq_none.mp hnone t ht
    simp only [beq_iff_eq] at hno
    exact absurd hid hno
  · obtain ⟨hmem0, hid0⟩ := lookupTask_mem hl
    have he : t = t0 := nodup_ids_inj hI.nodup ht hmem0 (by rw [hid, hid0])
    rw [he]
    exact hterm0

/-- Counterexample to claim C6 as stated.  Cancelling the running task
does mark it failed, but the cancellation predicate handed to every
adapter — cancel_check_func = `lambda: not self.running` — still returns
false afterwards, because POST /tasks/interrupt never touches the
TaskManager.running flag; and the SCENE_MERGE pipeline, whose only
per-step cancellation check is that flag, performs a second backend
submission.  So it is false that after a cancellation every subsequent
check of the cancellation predicate returns true before any further
backend submission. -/
theorem cancellation_predicate_counterexample :
    statusOf (run initState [Action.enqueue "SCENE_MERGE", Action.claim]) 1 =
      some Status.running ∧
    statusOf (applyAction (run initState [Action.enqueue "SCENE_MERGE", Action.claim])
      (Action.cancel 1)) 1 = some Status.failed ∧
    managerCancelCheck (applyAction (run initState [Action.enqueue "SCENE_MERGE", Action.claim])
      (Action.cancel 1)) = false ∧
    (handleSceneMerge mergeEnvC6 sceneW).submissions = 2 :=
  ⟨by decide, by decide, by decide, by decide⟩

/-- Claim C6 (amended): cancelling a queued or running task through POST
/tasks/interrupt marks it failed in the same route transaction, with the
cancellation result and completed_at set; the task is never observed in
status "running" in any later reachable state; and the status re-read the
adapters perform inside their progress callbacks (db.refresh + raise on
status "failed", raise on a deleted row) observes the cancellation at
every subsequent check.  The original claim's clause about the
cancel_check_func predicate does not hold: that closure only reflects the
manager flag (see the counterexample). -/
theorem cancellation_correctness_amended (s : SchedState) (id : Nat) (t : Task)
    (hR : Reachable s) (hl : lookupTask s id = some t)
    (hqr : t.status = .queued ∨ t.status = .running) :
    lookupTask (applyAction s (.cancel id)) id =
      some { t with status := .failed, result_json := some interruptedMsg,
                    completed_at := some s.clock } ∧
    (∀ acts : List Action,
        statusOf (run (applyAction s (.cancel id)) acts) id ≠ some .running) ∧
    (∀ acts : List Action,
        adapterStatusCheckAborts (run (applyAction s (.cancel id)) acts) id = true) := by
  have hI := inv_reachable hR
  obtain ⟨hlook, hff⟩ := cancel_marks_failed hI hl hqr
  refine ⟨hlook, ?_, ?_⟩
  · intro acts
    have hff2 := failedForever_run acts hff
    rcases failedForever_statusOf hff2 with h | h <;> rw [h] <;> simp
  · intro acts
    exact failedForever_abortCheck (failedForever_run acts hff)

/-- Concrete instantiation of the amended claim C6: cancelling a queued
task makes it failed at once, and after the worker loop has run twice
more the adapter status check still reports the cancellation. -/
theorem cancellation_correctness_amended_witness :
    lookupTask (applyAction (run initState [Action.enqueue "GEN_BASE"]) (Action.cancel 1)) 1 =
      some { id := 1, task_type := "GEN_BASE", status := Status.failed, progress := 0,
             result_json := some interruptedMsg, error := none, created_at := 0,
             started_at := none, completed_at := some 0, duration := none } ∧
    adapterStatusCheckAborts
      (run (applyAction (run initState [Action.enqueue "GEN_BASE"]) (Action.cancel 1))
        [Action.claim, Action.finishOk]) 1 = true :=
  ⟨(cancellation_correctness_amended (run initState [Action.enqueue "GEN_BASE"]) 1
      { id := 1, task_type := "GEN_BASE", status := Status.queued, progress := 0,
        result_json := none, error := none, created_at := 0, started_at := none,
        completed_at := none, duration := none }
      ⟨_, rfl⟩ (by decide) (Or.inl rfl)).1,
   (cancellation_correctness_amended (run initState [Action.enqueue "GEN_BASE"]) 1
      { id := 1, task_type := "GEN_BASE", status := Status.queued, progress := 0,
        result_json := none, error := none, created_at := 0, started_at := none,
        completed_at := none, duration := none }
      ⟨_, rfl⟩ (by decide) (Or.inl rfl)).2.2 [Action.claim, Action.finishOk]⟩

/-- Counterexample to claim C2 as stated: for a SCENE_MERGE task with a
one-step plan, the handler commits the progress sequence 5, 10, 0, 100 —
the committed write of int(0/1*100) = 0 at the start of step 0 regresses
below the previously committed 10, so SCENE_MERGE progress is neither
non-decreasing nor combined with the previous value by max. -/
theorem progress_monotonic_counterexample :
    (handleSceneMerge mergeEnvC2 sceneW).progressWrites = [5, 10, 0, 100] ∧
    ¬ List.Chain' (fun a b : Nat => a ≤ b)
      (handleSceneMerge mergeEnvC2 sceneW).progressWrites := by
  have h : (handleSceneMerge mergeEnvC2 sceneW).progressWrites = [5, 10, 0, 100] := by decide
  refine ⟨h, ?_⟩
  rw [h]
  intro hchain
  rcases List.chain'_cons.mp hchain with ⟨_, h2⟩
  rcases List.chain'_cons.mp h2 with ⟨h10, _⟩
  omega

/-- Claim C2 (amended): the multi-view (GEN_8VIEWS) adapter's aggregation
combines every new progress value with the previous published value by
max before clamping, so the stream it publishes while the task runs is
non-decreasing, and so are the truncated integers committed to
Task.progress.  (The SCENE_MERGE handler violates the original claim —
see the counterexample: it rewinds committed progress to 0 at step 0.) -/
theorem progress_monotonic_views (T : Nat) (events : List ViewsEvent)
    (hok : ∀ e ∈ events, ViewsEventOk e) :
    List.Chain' (fun a b => a ≤ b) (viewsTrace T viewsInit events) ∧
    List.Chain' (fun a b => a ≤ b)
      ((viewsTrace T viewsInit events).map (fun q => Int.floor q)) := by
  have h := (viewsTrace_spec T events viewsInit hok (viewsGood_init T)).1
  refine ⟨h, ?_⟩
  exact List.chain'_map_of_chain' (fun q => Int.floor q) (fun a b hab => Int.floor_mono hab) h

/-- Concrete instantiation of the amended claim C2: a run with two sampler
progress events, a finished view and a fresh sampler starting near zero
publishes a non-decreasing stream. -/
theorem progress_monotonic_views_witness :
    (∀ e ∈ ([ViewsEvent.prog 5 20, ViewsEvent.prog 10 20, ViewsEvent.nodeFinished true,
              ViewsEvent.prog 2 20] : List ViewsEvent), ViewsEventOk e) ∧
    List.Chain' (fun a b => a ≤ b)
      (viewsTrace 8 viewsInit [ViewsEvent.prog 5 20, ViewsEvent.prog 10 20,
        ViewsEvent.nodeFinished true, ViewsEvent.prog 2 20]) :=
  ⟨by decide,
   (progress_monotonic_views 8
     [ViewsEvent.prog 5 20, ViewsEvent.prog 10 20,
      ViewsEvent.nodeFinished true, ViewsEvent.prog 2 20] (by decide)).1⟩

/-- Counterexample to claim C4 as stated: with a two-step plan whose
second backend job fails, the Scene keeps step 0's committed artifact as
its intermediate merged image and the handler fails — but the Scene's
persisted step-record list is unchanged (still null): step 0's record was
never committed durably before step 1 started.  The failure path does not
erase records; the all-success variant of the same plan is the only one
that persists them (both of them, at the end). -/
theorem partial_progress_counterexample :
    (handleSceneMerge mergeEnvC4 sceneW).ok = false ∧
    (handleSceneMerge mergeEnvC4 sceneW).scene.merged_image_path = some "a0" ∧
    (handleSceneMerge mergeEnvC4 sceneW).scene.merged_prompts = none ∧
    ((handleSceneMerge mergeEnvC4ok sceneW).scene.merged_prompts).map List.length = some 2 :=
  ⟨by decide, by decide, by decide, by decide⟩

/-- Claim C4 (amended): for a SCENE_MERGE task over a plan of resolvable
steps, if step k fails after steps 0..k-1 committed, the handler raises
(so the worker loop finalizes the task as failed), the Scene's
intermediate merged-image path equals the artifact committed by step k-1
— or retains its pre-task value when k = 0, so the original background
remains what the Scene shows — and the Scene's status and persisted
step-record list are unchanged: each step's output path is committed
durably before the next step starts, while step records are persisted
only after a fully successful run. -/
theorem sceneMerge_partial_progress (env : MergeEnv) (scene : SceneState)
    (base : String) (arts : Nat → String) (k : Nat)
    (hrun : env.running = true)
    (hbase : scene.base_image_path = some base)
    (hplayers : env.players.isEmpty = false)
    (hres : ∀ step ∈ plannedSteps env, Resolves env.players step)
    (hk : k < (plannedSteps env).length)
    (hok : ∀ n, n < k → env.backend n = .ok (arts n))
    (herr : env.backend k = .error ()) :
    (handleSceneMerge env scene).ok = false ∧
    (handleSceneMerge env scene).scene.merged_image_path =
      (if k = 0 then scene.merged_image_path else some (arts (k - 1))) ∧
    (handleSceneMerge env scene).scene.merged_prompts = scene.merged_prompts ∧
    (handleSceneMerge env scene).scene.status = scene.status := by
  have htotal : (plannedSteps env).length ≠ 0 := by omega
  rw [handleSceneMerge_loop env scene hbase hplayers htotal]
  obtain ⟨st2, heq, hmrg⟩ := mergeLoop_fail env (plannedSteps env).length hrun arts
    (plannedSteps env) k 0
    { current := base, scene_merged := scene.merged_image_path,
      records := [], subCount := 0, trace := [] }
    hk hres (by intro n hn; simpa using hok n hn) (by simpa using herr)
  rw [heq]
  refine ⟨rfl, ?_, rfl, rfl⟩
  show st2.scene_merged = _
  rw [hmrg]
  by_cases hk0 : k = 0
  · rw [if_pos hk0, if_pos hk0]
  · rw [if_neg hk0, if_neg hk0]
    congr 2
    show 0 + k - 1 = k - 1
    omega

/-- Concrete instantiation of the amended claim C4: the two-step plan with
a failing second step leaves step 0's artifact committed and no persisted
records. -/
theorem sceneMerge_partial_progress_witness :
    (handleSceneMerge mergeEnvC4 sceneW).ok = false ∧
    (handleSceneMerge mergeEnvC4 sceneW).scene.merged_image_path = some "a0" ∧
    (handleSceneMerge mergeEnvC4 sceneW).scene.merged_prompts = sceneW.merged_prompts := by
  have h := sceneMerge_partial_progress mergeEnvC4 sceneW "sb" (fun _ => "a0") 1
    rfl rfl rfl
    (by
      intro step hstep
      have hs : step = fallbackStep playerW1 ∨ step = fallbackStep playerW2 := by
        simpa [plannedSteps, mergeEnvC4] using hstep
      rcases hs with rfl | rfl
      · exact ⟨playerW1, "p1", by decide, by decide⟩
      · exact ⟨playerW2, "p2", by decide, by decide⟩)
    (by decide)
    (by
      intro n hn
      have hn0 : n = 0 := by omega
      subst hn0
      rfl)
    rfl
  refine ⟨h.1, ?_, h.2.2.1⟩
  rw [h.2.1]
  decide

/-- Claim C7: composite chaining.  For a SCENE_MERGE task whose plan has
N ≥ 1 resolvable steps and whose backend jobs all succeed, the handler
returns normally, the Scene is marked completed, the persisted step
record list has exactly N entries whose step indices are 0..N-1 in plan
order, and the Scene's final merged-image path is the artifact produced
by the last step — not by any earlier one. -/
theorem sceneMerge_chaining (env : MergeEnv) (scene : SceneState)
    (base : String) (arts : Nat → String)
    (hrun : env.running = true)
    (hbase : scene.base_image_path = some base)
    (hplayers : env.players.isEmpty = false)
    (hres : ∀ step ∈ plannedSteps env, Resolves env.players step)
    (hN : 0 < (plannedSteps env).length)
    (hback : ∀ n, env.backend n = .ok (arts n)) :
    (handleSceneMerge env scene).ok = true ∧
    (handleSceneMerge env scene).scene.status = "completed" ∧
    (handleSceneMerge env scene).scene.merged_image_path =
      some (arts ((plannedSteps env).length - 1)) ∧
    ∃ recs, (handleSceneMerge env scene).scene.merged_prompts = some recs ∧
      recs.length = (plannedSteps env).length ∧
      recs.map (fun r => r.step_index) = List.range (plannedSteps env).length := by
  have htotal : (plannedSteps env).length ≠ 0 := by omega
  rw [handleSceneMerge_loop env scene hbase hplayers htotal]
  obtain ⟨st2, heq, hsub, hrecs, hcur, hmrg⟩ := mergeLoop_ok env (plannedSteps env).length hrun
    arts hback (plannedSteps env) 0
    { current := base, scene_merged := scene.merged_image_path,
      records := [], subCount := 0, trace := [] } hres
  rw [heq]
  simp only [List.map_nil, List.nil_append] at hrecs
  refine ⟨rfl, rfl, ?_, st2.records, rfl, ?_, ?_⟩
  · show some st2.current = _
    rw [hcur, if_neg htotal]
    congr 2
    show 0 + (plannedSteps env).length - 1 = _
    omega
  · have hlen := congrArg List.length hrecs
    simpa using hlen
  · rw [hrecs, List.range_eq_range']

/-- Concrete instantiation of claim C7: a two-step plan ends completed
with the second artifact as the final merged image and step records
[0, 1]. -/
theorem sceneMerge_chaining_witness :
    (handleSceneMerge mergeEnvC7 sceneW).ok = true ∧
    (handleSceneMerge mergeEnvC7 sceneW).scene.merged_image_path = some "a1" ∧
    ((handleSceneMerge mergeEnvC7 sceneW).scene.merged_prompts).map
      (List.map (fun r => r.step_index)) = some [0, 1] := by
  have h := sceneMerge_chaining mergeEnvC7 sceneW "sb"
    (fun n => if n = 0 then "a0" else "a1") rfl rfl rfl
    (by
      intro step hstep
      have hs : step = fallbackStep playerW1 ∨ step = fallbackStep playerW2 := by
        simpa [plannedSteps, mergeEnvC7] using hstep
      rcases hs with rfl | rfl
      · exact ⟨playerW1, "p1", by decide, by decide⟩
      · exact ⟨playerW2, "p2", by decide, by decide⟩)
    (by decide) (fun n => rfl)
  refine ⟨h.1, ?_, by decide⟩
  rw [h.2.2.1]
  decide

/-- Claim C8: when the planning call raises, the SCENE_MERGE pipeline
substitutes the deterministic fallback plan — exactly one step per
associated character, in roster order, each carrying the generic
reference view "right45" and the boilerplate prompt text of fallbackStep
— and, with the backend succeeding, the run completes normally: the
pipeline neither aborts nor deadlocks solely because planning failed. -/
theorem sceneMerge_fallback_plan (env : MergeEnv) (scene : SceneState)
    (base : String) (arts : Nat → String)
    (hrun : env.running = true)
    (hplan : env.planner = .error ())
    (hbase : scene.base_image_path = some base)
    (hplayers : env.players ≠ [])
    (hids : ∀ p ∈ env.players, p.id ≠ 0)
    (hpb : ∀ p ∈ env.players, p.base_image_path.isSome)
    (hback : ∀ n, env.backend n = .ok (arts n)) :
    plannedSteps env = env.players.map fallbackStep ∧
    (plannedSteps env).length = env.players.length ∧
    (∀ i : Nat, (plannedSteps env)[i]? = (env.players[i]?).map fallbackStep) ∧
    (handleSceneMerge env scene).ok = true := by
  have hsteps : plannedSteps env = env.players.map fallbackStep := by
    simp [plannedSteps, hplan, fallbackPlan]
  have hisEmpty : env.players.isEmpty = false := by
    cases hp : env.players with
    | nil => exact absurd hp hplayers
    | cons a l => rfl
  have hresolve : ∀ step ∈ plannedSteps env, Resolves env.players step := by
    rw [hsteps]
    exact fallback_resolves env.players hids hpb
  have hN : (plannedSteps env).length ≠ 0 := by
    rw [hsteps]
    simp only [List.length_map]
    exact Nat.pos_iff_ne_zero.mp (List.length_pos.mpr hplayers)
  refine ⟨hsteps, by rw [hsteps]; simp, ?_, ?_⟩
  · intro i
    rw [hsteps]
    simp
  · rw [handleSceneMerge_loop env scene hbase hisEmpty hN]
    obtain ⟨st2, heq, _⟩ := mergeLoop_ok env (plannedSteps env).length hrun
      arts hback (plannedSteps env) 0
      { current := base, scene_merged := scene.merged_image_path,
        records := [], subCount := 0, trace := [] } hresolve
    rw [heq]

/-- Concrete instantiation of claim C8: with a raising planner over two
characters the pipeline runs the two-step fallback plan to completion. -/
theorem sceneMerge_fallback_plan_witness :
    plannedSteps mergeEnvC8 = [fallbackStep playerW1, fallbackStep playerW2] ∧
    (handleSceneMerge mergeEnvC8 sceneW).ok = true := by
  have h := sceneMerge_fallback_plan mergeEnvC8 sceneW "sb"
    (fun n => if n = 0 then "m0" else "m1") rfl rfl rfl
    (by decide) (by decide) (by decide) (fun n => rfl)
  exact ⟨by decide, h.2.2.2⟩

/-- Concrete instantiation of claim C5: stopping all tasks marks the
queued task failed with the Global-Stop tag, and a batch over one draft
character whose prompt task fails with that tag ends at the abort event:
no later item, no next stage. -/
theorem globalStop_abort_witness :
    (({ id := 1, task_type := "GEN_PROMPT", status := Status.failed, progress := 0,
        result_json := some globalStopMsg, error := none, created_at := 0,
        started_at := none, completed_at := some 0, duration := none } : Task)
      ∈ (applyAction (run initState [Action.enqueue "GEN_PROMPT"]) Action.stopAll).tasks) ∧
    processBatchGenBase
      { players := [{ player_name := "alice", status := "draft" }],
        promptOutcome := fun _ => .failure (some globalStopMsg),
        baseOutcome := fun _ => .success } =
      [BatchEvent.submitPrompt 0, BatchEvent.abortBatch 0] := by
  have h := globalStop_abort (run initState [Action.enqueue "GEN_PROMPT"])
    { id := 1, task_type := "GEN_PROMPT", status := Status.queued, progress := 0,
      result_json := none, error := none, created_at := 0, started_at := none,
      completed_at := none, duration := none }
    (by decide) (Or.inl rfl)
    { players := [{ player_name := "alice", status := "draft" }],
      promptOutcome := fun _ => .failure (some globalStopMsg),
      baseOutcome := fun _ => .success }
    0 { player_name := "alice", status := "draft" } (some globalStopMsg)
    (by decide) rfl rfl (by decide)
  exact ⟨h.1, by decide⟩

/-- Concrete instantiation of claim C10: cancelling a task that is already
done, and cancelling an id with no row, both leave the state unchanged. -/
theorem cancel_terminal_noop_witness :
    applyAction (run initState [Action.enqueue "GEN_PROMPT", Action.claim, Action.finishOk])
      (Action.cancel 1) =
      run initState [Action.enqueue "GEN_PROMPT", Action.claim, Action.finishOk] ∧
    applyAction (run initState [Action.enqueue "GEN_PROMPT", Action.claim, Action.finishOk])
      (Action.cancel 7) =
      run initState [Action.enqueue "GEN_PROMPT", Action.claim, Action.finishOk] :=
  ⟨cancel_terminal_noop _ 1 ⟨_, rfl⟩
     (Or.inr ⟨{ id := 1, task_type := "GEN_PROMPT", status := Status.done, progress := 100,
                result_json := none, error := none, created_at := 0, started_at := some 0,
                completed_at := some 0, duration := some 0 }, by decide, Or.inl rfl⟩),
   cancel_terminal_noop _ 7 ⟨_, rfl⟩ (Or.inl (by decide))⟩

end KtAiStudio

